import Mathlib

/-!
Verification of the BallPit core (src/partition.ts and src/ballSolver.ts).

The two source classes are shallowly embedded over exact rational arithmetic:
JS numbers become `ℚ`, `Vector2` becomes `ℚ × ℚ`, JS arrays become `List`s,
and in-place mutation becomes explicit state passing.  Array accesses that
would fault in JS (reading `undefined` and then dereferencing it) are modelled
with `Option`: a `none` result stands for a thrown `TypeError`.

`Math.sqrt` has no exact counterpart on `ℚ`; every definition that needs it is
parametrised by a function `sqrtFn : ℚ → ℚ`, and the concrete instantiation
`ratSqrt` below is exact on perfect squares of rationals (all the concrete
scenarios proved in this file only take square roots of perfect squares, where
`ratSqrt` agrees with the real square root).
-/

/-- Componentwise vector addition, modelling `Vector2.add`. -/
def vadd (a b : ℚ × ℚ) : ℚ × ℚ := (a.1 + b.1, a.2 + b.2)

/-- Componentwise vector subtraction, modelling `Vector2.sub`. -/
def vsub (a b : ℚ × ℚ) : ℚ × ℚ := (a.1 - b.1, a.2 - b.2)

/-- Scalar multiplication, modelling `Vector2.multiplyScalar`. -/
def vscale (c : ℚ) (a : ℚ × ℚ) : ℚ × ℚ := (c * a.1, c * a.2)

/-- Dot product, modelling `Vector2.dot`. -/
def vdot (a b : ℚ × ℚ) : ℚ := a.1 * b.1 + a.2 * b.2

/-- Squared length of a vector (`Vector2.lengthSq`); `Vector2.length` is
`Math.sqrt` of this. -/
def vlengthSq (a : ℚ × ℚ) : ℚ := a.1 * a.1 + a.2 * a.2

/-- Model of `Math.sqrt` on rationals: take integer square roots of the
numerator and denominator.  For a rational that is the square of a rational
(the only inputs appearing in the concrete evaluations below) this is the
exact square root; elsewhere it is merely an approximation, mirroring the fact
that binary floating point `Math.sqrt` is itself approximate. -/
def ratSqrt (q : ℚ) : ℚ := (Int.sqrt q.num : ℚ) / (Nat.sqrt q.den : ℚ)

/-- The inclusive integer range `[lo, hi]` as a list (empty when `lo > hi`),
modelling a JS `for (let i = lo; i <= hi; i++)` loop. -/
def intRangeIncl (lo hi : Int) : List Int :=
  (List.range (hi + 1 - lo).toNat).map (fun i : Nat => lo + (i : Int))

/-- Safe 2D grid read: `g[x][y]` where a JS out-of-range read would produce
`undefined` and dereferencing it would throw. -/
def get2? (g : List (List α)) (x y : Int) : Option α :=
  if 0 ≤ x ∧ 0 ≤ y then (g.get? x.toNat).bind (fun row => row.get? y.toNat)
  else none

/-- 2D grid write `g[x][y] = a` (used only after a successful `get2?` at the
same indices, mirroring the in-place mutation of a fetched JS array). -/
def set2 (g : List (List α)) (x y : Int) (a : α) : List (List α) :=
  if 0 ≤ x ∧ 0 ≤ y then
    match g.get? x.toNat with
    | some row => g.set x.toNat (row.set y.toNat a)
    | none => g
  else g

/-- Lookup in the id→bucket map (`Map.get`, with `Map.has = (mapGet …).isSome`).
The map is represented as an association list where the most recent binding
for a key shadows older ones. -/
def mapGet : List (Nat × Int × Int) → Nat → Option (Int × Int)
  | [], _ => none
  | e :: rest, k => if e.1 = k then some e.2 else mapGet rest k

/-- `Map.set`: prepend a binding, shadowing any previous one. -/
def mapSet (m : List (Nat × Int × Int)) (k : Nat) (v : Int × Int) :
    List (Nat × Int × Int) :=
  (k, v) :: m

/-- `Array.prototype.splice(indexOf(a), 1)` as used in `Partition.Update`:
remove the first occurrence of `a`; when `a` is absent, `indexOf` returns `-1`
and `splice(-1, 1)` removes the last element instead. -/
def spliceRemove (l : List Nat) (a : Nat) : List Nat :=
  if a ∈ l then l.erase a else l.dropLast

/-- State of the `Partition` class (src/partition.ts): the 2D bucket grid (a
`number[][][]`, outer index x, inner index y), the id→bucket-coordinates map,
and the configuration fields `_cellSize` and `_minRange`. -/
structure Partition where
  buckets : List (List (List Nat))
  idToBucket : List (Nat × Int × Int)
  cellSize : ℚ
  minRange : ℚ × ℚ
  deriving DecidableEq

/-- `Partition._PositionToBucketIndices`:
`[floor((pos.x - minRange.x) / cellSize), floor((pos.y - minRange.y) / cellSize)]`. -/
def Partition.PositionToBucketIndices (p : Partition) (pos : ℚ × ℚ) : Int × Int :=
  (⌊(pos.1 - p.minRange.1) / p.cellSize⌋, ⌊(pos.2 - p.minRange.2) / p.cellSize⌋)

/-- Number of columns of the constructed grid: the constructor's
`for (let x = 0; x < xCount; x++)` loop with the possibly fractional bound
`xCount = (maxRange.x - minRange.x) / cellSize` runs once per natural number
below `xCount`, i.e. `max 0 ⌈xCount⌉` times. -/
def gridW (minR maxR : ℚ × ℚ) (maxDistance : ℚ) : Nat :=
  (max 0 ⌈(maxR.1 - minR.1) / maxDistance⌉).toNat

/-- Number of rows per column of the constructed grid (same loop shape on the
y axis). -/
def gridH (minR maxR : ℚ × ℚ) (maxDistance : ℚ) : Nat :=
  (max 0 ⌈(maxR.2 - minR.2) / maxDistance⌉).toNat

/-- The `Partition` constructor: `cellSize = maxDistance` and a
`gridW × gridH` grid of empty buckets. -/
def Partition.init (minR maxR : ℚ × ℚ) (maxDistance : ℚ) : Partition :=
  { buckets := List.replicate (gridW minR maxR maxDistance)
      (List.replicate (gridH minR maxR maxDistance) ([] : List Nat)),
    idToBucket := [],
    cellSize := maxDistance,
    minRange := minR }

/-- `Partition.Update(id, position)`.  Note: the source guards the removal
with `if (oldBucketIndices != bucketIndices)`, but both operands are JS
arrays and `!=` compares references; `_PositionToBucketIndices` allocates a
fresh array on every call, so the guard is always true and the removal +
re-insertion happens on every update of an already-registered id.  The
embedding encodes that actual behavior. -/
def Partition.Update (p : Partition) (id : Nat) (pos : ℚ × ℚ) : Option Partition :=
  let b := p.PositionToBucketIndices pos
  match mapGet p.idToBucket id with
  | some ob => do
      let oldBucket ← get2? p.buckets ob.1 ob.2
      let removed := spliceRemove oldBucket id
      let g1 := set2 p.buckets ob.1 ob.2 removed
      let newBucket ← get2? g1 b.1 b.2
      let g2 := set2 g1 b.1 b.2 (newBucket ++ [id])
      pure { p with buckets := g2, idToBucket := mapSet p.idToBucket id b }
  | none => do
      let newBucket ← get2? p.buckets b.1 b.2
      pure { p with buckets := set2 p.buckets b.1 b.2 (newBucket ++ [id]),
                    idToBucket := mapSet p.idToBucket id b }

/-- The inner `for (let y = bucketMinY; y <= bucketMaxY; y++)` loop of
`GetNearby`, concatenating bucket contents for one column index `x`. -/
def collectRow (g : List (List (List Nat))) (x : Int) : List Int → Option (List Nat)
  | [] => some []
  | y :: rest => do
      let b ← get2? g x y
      let r ← collectRow g x rest
      pure (b ++ r)

/-- The outer `for (let x = bucketMinX; x <= bucketMaxX; x++)` loop of
`GetNearby`. -/
def collectAll (g : List (List (List Nat))) : List Int → List Int → Option (List Nat)
  | [], _ => some []
  | x :: rest, ys => do
      let r1 ← collectRow g x ys
      let r2 ← collectAll g rest ys
      pure (r1 ++ r2)

/-- `Partition.GetNearby(position)`: clamp the 3×3 block of buckets around the
position's bucket to the grid (`this._buckets.length` columns,
`this._buckets[0].length` rows — reading `this._buckets[0]` faults when the
grid has no columns) and concatenate the clamped block's contents. -/
def Partition.GetNearby (p : Partition) (pos : ℚ × ℚ) : Option (List Nat) := do
  let b := p.PositionToBucketIndices pos
  let row0 ← p.buckets.get? 0
  let xMax : Int := (p.buckets.length : Int) - 1
  let yMax : Int := (row0.length : Int) - 1
  let xs := intRangeIncl (max (b.1 - 1) 0) (min (b.1 + 1) xMax)
  let ys := intRangeIncl (max (b.2 - 1) 0) (min (b.2 + 1) yMax)
  collectAll p.buckets xs ys

/-- State of the `BallSolver` class (src/ballSolver.ts): the four parallel
per-ball attribute arrays plus the configuration fields and the owned
partition. -/
structure BallSolver where
  positions : List (ℚ × ℚ)
  velocities : List (ℚ × ℚ)
  masses : List ℚ
  radii : List ℚ
  minRange : ℚ × ℚ
  maxRange : ℚ × ℚ
  gravity : ℚ
  coeffOfRestitution : ℚ
  partition : Partition
  deriving DecidableEq

/-- The `BallSolver` constructor: empty attribute arrays and a partition sized
with `maxDistance = maxRadius * 2`. -/
def BallSolver.init (minR maxR : ℚ × ℚ) (maxRadius gravity e : ℚ) : BallSolver :=
  { positions := [], velocities := [], masses := [], radii := [],
    minRange := minR, maxRange := maxR,
    gravity := gravity, coeffOfRestitution := e,
    partition := Partition.init minR maxR (maxRadius * 2) }

/-- `BallSolver.AddBall`: append the attributes and register the new id
(`id = current count`) with the partition. -/
def BallSolver.AddBall (s : BallSolver) (position velocity : ℚ × ℚ)
    (mass radius : ℚ) : Option BallSolver := do
  let id := s.positions.length
  let part ← s.partition.Update id position
  pure { s with
    positions := s.positions ++ [position],
    velocities := s.velocities ++ [velocity],
    masses := s.masses ++ [mass],
    radii := s.radii ++ [radius],
    partition := part }

/-- `BallSolver._Solve1DCollision`: the restitution equation along the
collision normal. -/
def BallSolver.Solve1DCollision (restitution massA massB velocityA velocityB : ℚ) :
    ℚ × ℚ :=
  let totalMass := massA + massB
  let totalMomentum := massA * velocityA + massB * velocityB
  ((restitution * massB * (velocityB - velocityA) + totalMomentum) / totalMass,
   (restitution * massA * (velocityA - velocityB) + totalMomentum) / totalMass)

/-- `BallSolver._HandleWallCollisions`: clamp the ball's center to each of the
four walls in source order (x-max, x-min, y-max, y-min), reflecting and
damping the corresponding velocity component when it still points into the
wall.  Each later test reads the coordinate as already clamped by the earlier
one, exactly as the sequential in-place mutations do. -/
def BallSolver.HandleWallCollisions (s : BallSolver) (i : Nat) : Option BallSolver := do
  let p ← s.positions.get? i
  let v ← s.velocities.get? i
  let r ← s.radii.get? i
  let e := s.coeffOfRestitution
  let q1 := if p.1 > s.maxRange.1 - r then
      (s.maxRange.1 - r, if v.1 > 0 then v.1 * (-e) else v.1)
    else (p.1, v.1)
  let q2 := if q1.1 < s.minRange.1 + r then
      (s.minRange.1 + r, if q1.2 < 0 then q1.2 * (-e) else q1.2)
    else q1
  let w1 := if p.2 > s.maxRange.2 - r then
      (s.maxRange.2 - r, if v.2 > 0 then v.2 * (-e) else v.2)
    else (p.2, v.2)
  let w2 := if w1.1 < s.minRange.2 + r then
      (s.minRange.2 + r, if w1.2 < 0 then w1.2 * (-e) else w1.2)
    else w1
  pure { s with positions := s.positions.set i (q2.1, w2.1),
                velocities := s.velocities.set i (q2.2, w2.2) }

/-- The wall-resolution pass at the top of `Solve`: `_HandleWallCollisions`
for every index below `GetBallCount()` (the count is invariant during the
pass). -/
def BallSolver.wallPass (s : BallSolver) : Option BallSolver :=
  (List.range s.positions.length).foldlM (fun t i => t.HandleWallCollisions i) s

/-- `BallSolver._IsColliding`: squared center distance strictly below the
squared sum of radii. -/
def BallSolver.IsColliding (s : BallSolver) (iA iB : Nat) : Option Bool := do
  let pA ← s.positions.get? iA
  let rA ← s.radii.get? iA
  let pB ← s.positions.get? iB
  let rB ← s.radii.get? iB
  pure (decide (vlengthSq (vsub pA pB) < (rA + rB) ^ 2))

/-- Lines 445–458 of `_HandleCollision`: the ball-A→ball-B delta and its
length, with the degenerate substitution `dist = radiusA + radiusB - 1`,
`delta = (radiusA + radiusB, 0)` when the computed length is zero.  Returns
`(dist, delta)`. -/
def BallSolver.collisionGeometry (sqrtFn : ℚ → ℚ) (pA pB : ℚ × ℚ) (rA rB : ℚ) :
    ℚ × (ℚ × ℚ) :=
  let delta := vsub pB pA
  let dist := sqrtFn (vlengthSq delta)
  if dist = 0 then (rA + rB - 1, (rA + rB, 0)) else (dist, delta)

/-- The collision normal of `_HandleCollision`: `delta * (1 / dist)` with
`dist`/`delta` from `collisionGeometry`. -/
def BallSolver.collisionNormal (sqrtFn : ℚ → ℚ) (pA pB : ℚ × ℚ) (rA rB : ℚ) :
    ℚ × ℚ :=
  let g := BallSolver.collisionGeometry sqrtFn pA pB rA rB
  vscale (1 / g.1) g.2

/-- Lines 460–476 of `_HandleCollision`: the minimum-translation vector
`normal * (radiusA + radiusB - dist)` and the two positional offsets
`offsetA = minTransDelta * (-massA / massSum)`,
`offsetB = minTransDelta * (massB / massSum)`. -/
def BallSolver.overlapOffsets (sqrtFn : ℚ → ℚ) (pA pB : ℚ × ℚ) (rA rB mA mB : ℚ) :
    (ℚ × ℚ) × (ℚ × ℚ) :=
  let g := BallSolver.collisionGeometry sqrtFn pA pB rA rB
  let n := BallSolver.collisionNormal sqrtFn pA pB rA rB
  let minTransDelta := vscale (rA + rB - g.1) n
  let massSum := mA + mB
  (vscale ((-mA) / massSum) minTransDelta, vscale (mB / massSum) minTransDelta)

/-- The two in-place position mutations `positionA.add(offsetA);
positionB.add(offsetB)` of `_HandleCollision`.  The second write reads the
current value at `iB` first so that the embedding agrees with the in-place
mutations even on aliased indices. -/
def BallSolver.applyOffsets (s : BallSolver) (iA iB : Nat) (pA offA offB : ℚ × ℚ) :
    Option BallSolver := do
  let ps1 := s.positions.set iA (vadd pA offA)
  let curB ← ps1.get? iB
  pure { s with positions := ps1.set iB (vadd curB offB) }

/-- The two `this._partition.Update(index, position)` calls of
`_HandleCollision`, performed at the balls' corrected positions. -/
def BallSolver.collisionRegister (s : BallSolver) (iA iB : Nat) :
    Option BallSolver := do
  let pA1 ← s.positions.get? iA
  let part1 ← s.partition.Update iA pA1
  let s4 := { s with partition := part1 }
  let pB1 ← s4.positions.get? iB
  let part2 ← s4.partition.Update iB pB1
  pure { s4 with partition := part2 }

/-- The velocity part of `_HandleCollision`: compute the speeds along the
collision normal from the current (possibly wall-reflected) velocities, skip
the response if the balls are already separating (`approachSpeed < 0`), and
otherwise apply the `_Solve1DCollision` deltas along the normal.  The second
velocity write reads the current value first, mirroring the in-place
`Vector2.add` calls. -/
def BallSolver.velocityResponse (s : BallSolver) (iA iB : Nat) (n : ℚ × ℚ)
    (mA mB e : ℚ) : Option BallSolver := do
  let vA ← s.velocities.get? iA
  let vB ← s.velocities.get? iB
  let speedA := vdot vA n
  let speedB := vdot vB n
  if speedA - speedB < 0 then pure s
  else
    let res := BallSolver.Solve1DCollision e mA mB speedA speedB
    let voA := vscale (res.1 - speedA) n
    let voB := vscale (res.2 - speedB) n
    let vs1 := s.velocities.set iA (vadd vA voA)
    let curVB ← vs1.get? iB
    pure { s with velocities := vs1.set iB (vadd curVB voB) }

/-- `BallSolver._HandleCollision(indexA, indexB)`: translate the overlapping
balls apart, re-fix wall collisions for both, re-register both with the
partition, then apply the velocity response.  All reads happen at the same
points as in the source: the velocities used for the normal speeds are read
after the internal wall fixes (which may have reflected them). -/
def BallSolver.HandleCollision (sqrtFn : ℚ → ℚ) (s : BallSolver) (iA iB : Nat) :
    Option BallSolver := do
  let pA ← s.positions.get? iA
  let mA ← s.masses.get? iA
  let rA ← s.radii.get? iA
  let pB ← s.positions.get? iB
  let mB ← s.masses.get? iB
  let rB ← s.radii.get? iB
  let off := BallSolver.overlapOffsets sqrtFn pA pB rA rB mA mB
  let n := BallSolver.collisionNormal sqrtFn pA pB rA rB
  let s1 ← BallSolver.applyOffsets s iA iB pA off.1 off.2
  let s2 ← s1.HandleWallCollisions iA
  let s3 ← s2.HandleWallCollisions iB
  let s5 ← BallSolver.collisionRegister s3 iA iB
  BallSolver.velocityResponse s5 iA iB n mA mB s.coeffOfRestitution

/-- One candidate ball `indexB` of the `nearby` list inside `_Collisions`,
fused with the consumer of the generator: on a true overlap, the yielded pair
is handled by `_HandleCollision` followed by the two extra
`_HandleWallCollisions` calls of `Solve`, and the `collisionsFound` flag is
set.  The `nearby` list was captured before any of these mutations, exactly
as the JS generator keeps iterating over the array it fetched. -/
def BallSolver.processNearby (sqrtFn : ℚ → ℚ) (s : BallSolver) (iA : Nat)
    (nearby : List Nat) (found : Bool) : Option (BallSolver × Bool) :=
  nearby.foldlM
    (fun acc iB =>
      if iA = iB then pure acc
      else do
        let c ← acc.1.IsColliding iA iB
        if c then do
          let s1 ← BallSolver.HandleCollision sqrtFn acc.1 iA iB
          let s2 ← s1.HandleWallCollisions iA
          let s3 ← s2.HandleWallCollisions iB
          pure (s3, true)
        else pure acc)
    (s, found)

/-- The `for (let indexA = …)` loop of one sweep of `_Collisions`: fetch the
current position of `indexA`, query the partition, and process the returned
candidates. -/
def BallSolver.sweepAux (sqrtFn : ℚ → ℚ) (s : BallSolver) (indices : List Nat)
    (found : Bool) : Option (BallSolver × Bool) :=
  indices.foldlM
    (fun acc iA => do
      let pA ← acc.1.positions.get? iA
      let nearby ← acc.1.partition.GetNearby pA
      BallSolver.processNearby sqrtFn acc.1 iA nearby acc.2)
    (s, found)

/-- One full sweep of `_Collisions` over all ball indices, starting with
`collisionsFound = false`; returns the mutated solver and the flag.  The ball
count is read at sweep start; no operation of the sweep changes it. -/
def BallSolver.sweep (sqrtFn : ℚ → ℚ) (s : BallSolver) : Option (BallSolver × Bool) :=
  BallSolver.sweepAux sqrtFn s (List.range s.positions.length) false

/-- The `while ((iterations == 0 || collisionsFound) && iterations <
maxTestsPerBall)` loop of `_Collisions`, fused with its consumer: the fuel is
the number of sweeps still allowed (`Solve` passes `6`), and the returned
`Nat` counts the sweeps actually performed.  A sweep that finds no collision
ends the loop. -/
def BallSolver.collisionLoop (sqrtFn : ℚ → ℚ) :
    Nat → BallSolver → Option (BallSolver × Nat)
  | 0, s => some (s, 0)
  | fuel + 1, s => do
      let r ← BallSolver.sweep sqrtFn s
      if r.2 then do
        let r2 ← BallSolver.collisionLoop sqrtFn fuel r.1
        pure (r2.1, r2.2 + 1)
      else pure (r.1, 1)

/-- The first two phases of `Solve` (wall resolution pass, then the ball-ball
collision pass with `maxTestsPerBall = 6`); the state returned is the one to
which gravity and position integration are then applied. -/
def BallSolver.preIntegration (sqrtFn : ℚ → ℚ) (s : BallSolver) : Option BallSolver := do
  let s1 ← s.wallPass
  let r ← BallSolver.collisionLoop sqrtFn 6 s1
  pure r.1

/-- The gravity phase of `Solve`: add `(0, timestep * gravity)` to every
ball's velocity. -/
def BallSolver.addGravity (s : BallSolver) (timestep : ℚ) : Option BallSolver :=
  let gravityVel : ℚ × ℚ := (0, timestep * s.gravity)
  (List.range s.positions.length).foldlM
    (fun t i => do
      let v ← t.velocities.get? i
      pure { t with velocities := t.velocities.set i (vadd v gravityVel) }) s

/-- The integration phase of `Solve`: `position += velocity * timestep` and
re-register each ball with the partition. -/
def BallSolver.integrate (s : BallSolver) (timestep : ℚ) : Option BallSolver :=
  (List.range s.positions.length).foldlM
    (fun t i => do
      let v ← t.velocities.get? i
      let p ← t.positions.get? i
      let p1 := vadd p (vscale timestep v)
      let part ← t.partition.Update i p1
      pure { t with positions := t.positions.set i p1, partition := part }) s

/-- `BallSolver.Solve(timestep)`: wall pass, collision pass, gravity,
integration — in that source order. -/
def BallSolver.Solve (sqrtFn : ℚ → ℚ) (s : BallSolver) (timestep : ℚ) :
    Option BallSolver := do
  let s2 ← BallSolver.preIntegration sqrtFn s
  let s3 ← s2.addGravity timestep
  s3.integrate timestep

/-- A position is inside the half-open simulation bounds `[minR, maxR)` (the
region whose bucket indices land inside the constructed grid). -/
def inRange (minR maxR : ℚ × ℚ) (pos : ℚ × ℚ) : Prop :=
  minR.1 ≤ pos.1 ∧ pos.1 < maxR.1 ∧ minR.2 ≤ pos.2 ∧ pos.2 < maxR.2

/-- Partition states reachable from the constructor by `Update` calls whose
positions stay inside `[minR, maxR)`, together with the ghost map `f` giving
every registered id its last updated position. -/
inductive PartitionReach (minR maxR : ℚ × ℚ) (maxD : ℚ) :
    Partition → (Nat → Option (ℚ × ℚ)) → Prop
  | init : PartitionReach minR maxR maxD (Partition.init minR maxR maxD) (fun _ => none)
  | update {p : Partition} {f : Nat → Option (ℚ × ℚ)} {id : Nat} {pos : ℚ × ℚ}
      {p' : Partition} :
      PartitionReach minR maxR maxD p f →
      inRange minR maxR pos →
      p.Update id pos = some p' →
      PartitionReach minR maxR maxD p' (fun j => if j = id then some pos else f j)

/-- The structural invariant of reachable partition states: the configuration
fields are those of the constructor, the grid keeps its constructed
dimensions, the id→bucket map agrees with the ghost position map, and every
registered id sits exactly once in exactly its recorded bucket. -/
structure PartInv (minR maxR : ℚ × ℚ) (maxD : ℚ) (f : Nat → Option (ℚ × ℚ))
    (p : Partition) : Prop where
  cell : p.cellSize = maxD
  minr : p.minRange = minR
  width : p.buckets.length = gridW minR maxR maxD
  rect : ∀ row ∈ p.buckets, row.length = gridH minR maxR maxD
  mapped : ∀ id pos, f id = some pos →
      inRange minR maxR pos ∧
      mapGet p.idToBucket id = some (p.PositionToBucketIndices pos)
  unmapped : ∀ id, f id = none → mapGet p.idToBucket id = none
  unmappedCount : ∀ id, mapGet p.idToBucket id = none →
      ∀ x y b, get2? p.buckets x y = some b → b.count id = 0
  counts : ∀ id bi, mapGet p.idToBucket id = some bi →
      (0 ≤ bi.1 ∧ bi.1 < (p.buckets.length : Int) ∧
       0 ≤ bi.2 ∧ bi.2 < (gridH minR maxR maxD : Int)) ∧
      ∀ x y b, get2? p.buckets x y = some b →
        b.count id = (if (x, y) = bi then 1 else 0)

/-- A ball with center `p` and radius `r` respects all four walls of the
solver `s`. -/
def ballInBounds (s : BallSolver) (p : ℚ × ℚ) (r : ℚ) : Prop :=
  s.minRange.1 + r ≤ p.1 ∧ p.1 ≤ s.maxRange.1 - r ∧
  s.minRange.2 + r ≤ p.2 ∧ p.2 ≤ s.maxRange.2 - r

/-- Every ball of the solver respects all four walls. -/
def ContainedAll (s : BallSolver) : Prop :=
  ∀ i p r, s.positions.get? i = some p → s.radii.get? i = some r →
    ballInBounds s p r

/-- Every ball's diameter fits between the walls on both axes (without this a
single wall clamp can push the center past the opposite wall). -/
def RadiiFit (s : BallSolver) : Prop :=
  ∀ r ∈ s.radii, 2 * r ≤ s.maxRange.1 - s.minRange.1 ∧
    2 * r ≤ s.maxRange.2 - s.minRange.2

/-- The wall-relevant frame of a solver is unchanged: same bounds and same
radii (positions and velocities may differ). -/
def FrameEq (s t : BallSolver) : Prop :=
  t.minRange = s.minRange ∧ t.maxRange = s.maxRange ∧ t.radii = s.radii

/-- Concrete scenario for claim C2: the spec's two-ball head-on setup — radii
0.1, masses 1, centers (∓0.15, 0), velocities (±1, 0), restitution 1, zero
gravity — built through the constructor and `AddBall`. -/
def scenarioTwoBalls : Option BallSolver := do
  let s1 ← (BallSolver.init (-1, -1) (1, 1) (1/10) 0 1).AddBall (-3/20, 0) (1, 0) 1 (1/10)
  s1.AddBall (3/20, 0) (-1, 0) 1 (1/10)

/-- Concrete scenario for claim C1: world `[0,10]²`, one ball of radius 1
starting in bounds at `(8.5, 5)` with velocity `(10, 0)`, zero gravity. -/
def scenarioFastBall : Option BallSolver :=
  (BallSolver.init (0, 0) (10, 10) 1 0 1).AddBall (17/2, 5) (10, 0) 1 1

/-- Concrete state for the claim C1 witness: world `[0,10]²` (one partition
bucket), a single resting ball of radius 1 whose center `(9.5, 5)` violates
the right wall. -/
def scenarioClampBall : BallSolver :=
  { positions := [(19/2, 5)], velocities := [(0, 0)], masses := [1], radii := [1],
    minRange := (0, 0), maxRange := (10, 10), gravity := 0, coeffOfRestitution := 1,
    partition := { buckets := [[[0]]], idToBucket := [(0, 0, 0)],
                   cellSize := 10, minRange := (0, 0) } }

/-- The state produced by the wall and collision phases of `Solve` on
`scenarioClampBall`: the ball clamped back to the right wall. -/
def scenarioClamped : BallSolver :=
  { positions := [(9, 5)], velocities := [(0, 0)], masses := [1], radii := [1],
    minRange := (0, 0), maxRange := (10, 10), gravity := 0, coeffOfRestitution := 1,
    partition := { buckets := [[[0]]], idToBucket := [(0, 0, 0)],
                   cellSize := 10, minRange := (0, 0) } }

/-- Concrete scenario for claim C5: world `[-10,10]²`, a heavy ball (mass 3,
radius 1) at the origin overlapping a light ball (mass 1, radius 1) at
`(1, 0)`, both at rest. -/
def scenarioHeavyLight : Option BallSolver := do
  let s1 ← (BallSolver.init (-10, -10) (10, 10) 1 0 1).AddBall (0, 0) (0, 0) 3 1
  s1.AddBall (1, 0) (0, 0) 1 1

/-- Concrete scenario for claim C7: a partition over `[0,1)²` with a single
bucket, ids 0 and 1 both registered at `(0.5, 0.5)`, then id 0 re-updated at
the identical position. -/
def scenarioSameBucket : Option Partition := do
  let p1 ← (Partition.init (0, 0) (1, 1) 1).Update 0 (1/2, 1/2)
  let p2 ← p1.Update 1 (1/2, 1/2)
  p2.Update 0 (1/2, 1/2)

/-- Concrete partition used by the claims C8 and C3 witnesses: the state after
`Update(0, (0.75, 0.25))` on a fresh 2x2 partition over `[0,1)x[0,1)` with
`maxDistance = 0.5` (id 0 lands in bucket `(1, 0)`). -/
def partWitnessState : Partition :=
  { buckets := [[[], []], [[0], []]], idToBucket := [(0, 1, 0)],
    cellSize := 1/2, minRange := (0, 0) }

/-- The empty solver used by the claim C9 witness. -/
def emptySolver : BallSolver := BallSolver.init (0, 0) (1, 1) 1 0 1

/-! ## Helper lemmas -/

theorem mapGet_mapSet_self (m : List (Nat × Int × Int)) (k : Nat) (v : Int × Int) :
    mapGet (mapSet m k v) k = some v := by
  simp [mapGet, mapSet]

theorem mapGet_mapSet_ne (m : List (Nat × Int × Int)) (k j : Nat) (v : Int × Int)
    (h : k ≠ j) : mapGet (mapSet m k v) j = mapGet m j := by
  simp [mapGet, mapSet, h]

theorem length_set2 (g : List (List α)) (x y : Int) (a : α) :
    (set2 g x y a).length = g.length := by
  unfold set2
  split
  · split
    · simp
    · rfl
  · rfl

theorem get2?_set2_self {g : List (List α)} {x y : Int} {a : α} {r : α}
    (h : get2? g x y = some r) : get2? (set2 g x y a) x y = some a := by
  unfold get2? at h
  by_cases h0 : 0 ≤ x ∧ 0 ≤ y
  · rw [if_pos h0, Option.bind_eq_some] at h
    obtain ⟨row, hrow, hr⟩ := h
    obtain ⟨hx, -⟩ := List.get?_eq_some.mp hrow
    obtain ⟨hy, -⟩ := List.get?_eq_some.mp hr
    have hrow' : g[x.toNat]? = some row := by
      rw [← List.get?_eq_getElem?]
      exact hrow
    have hset : set2 g x y a = g.set x.toNat (row.set y.toNat a) := by
      simp [set2, if_pos h0, hrow']
    rw [hset]
    unfold get2?
    rw [if_pos h0, List.get?_set_eq_of_lt _ hx]
    simpa using List.get?_set_eq_of_lt a hy
  · rw [if_neg h0] at h
    exact absurd h (by simp)

theorem get2?_set2_ne {g : List (List α)} {x y x' y' : Int} {a : α}
    (h : (x', y') ≠ (x, y)) : get2? (set2 g x y a) x' y' = get2? g x' y' := by
  by_cases h0 : 0 ≤ x ∧ 0 ≤ y
  · cases hrow : g.get? x.toNat with
    | none =>
      have hrow' : g[x.toNat]? = none := by
        rw [← List.get?_eq_getElem?]
        exact hrow
      have hset : set2 g x y a = g := by simp [set2, if_pos h0, hrow']
      rw [hset]
    | some row =>
      have hrow' : g[x.toNat]? = some row := by
        rw [← List.get?_eq_getElem?]
        exact hrow
      have hset : set2 g x y a = g.set x.toNat (row.set y.toNat a) := by
        simp [set2, if_pos h0, hrow']
      rw [hset]
      unfold get2?
      by_cases h1 : 0 ≤ x' ∧ 0 ≤ y'
      · rw [if_pos h1, if_pos h1]
        obtain ⟨hx, -⟩ := List.get?_eq_some.mp hrow
        by_cases hxx : x' = x
        · subst hxx
          have hyy : y.toNat ≠ y'.toNat := by
            intro hc
            exact h (by
              have : y' = y := by omega
              rw [this])
          rw [List.get?_set_eq_of_lt _ hx, hrow]
          simp only [Option.some_bind]
          exact List.get?_set_ne _ _ hyy
        · have hne : x.toNat ≠ x'.toNat := by omega
          rw [List.get?_set_ne _ _ hne]
      · rw [if_neg h1, if_neg h1]
  · have hset : set2 g x y a = g := by simp [set2, h0]
    rw [hset]

theorem set2_rect {g : List (List α)} {x y : Int} {a : α} {P : Nat → Prop}
    (ha : ∀ row ∈ g, P row.length → P ((row.set y.toNat a).length))
    (h : ∀ row ∈ g, P row.length) :
    ∀ row' ∈ set2 g x y a, P row'.length := by
  intro row' hrow'
  unfold set2 at hrow'
  split at hrow'
  · split at hrow'
    · rename_i row hrow
      rcases List.mem_or_eq_of_mem_set hrow' with hmem | heq
      · exact h _ hmem
      · subst heq
        exact ha _ (List.get?_mem hrow) (h _ (List.get?_mem hrow))
    · exact h _ hrow'
  · exact h _ hrow'

theorem mem_intRangeIncl {a lo hi : Int} : a ∈ intRangeIncl lo hi ↔ lo ≤ a ∧ a ≤ hi := by
  unfold intRangeIncl
  rw [List.mem_map]
  constructor
  · rintro ⟨i, hlt, rfl⟩
    rw [List.mem_range] at hlt
    omega
  · rintro ⟨h1, h2⟩
    refine ⟨(a - lo).toNat, ?_, ?_⟩
    · rw [List.mem_range]
      omega
    · omega

theorem collectRow_total {g : List (List (List Nat))} {x : Int} :
    ∀ ys : List Int, (∀ y ∈ ys, ∃ b, get2? g x y = some b) →
      ∃ l, collectRow g x ys = some l := by
  intro ys
  induction ys with
  | nil => exact fun _ => ⟨[], rfl⟩
  | cons y rest ih =>
    intro h
    obtain ⟨b, hb⟩ := h y (List.mem_cons_self _ _)
    obtain ⟨l, hl⟩ := ih (fun y' hy' => h y' (List.mem_cons_of_mem _ hy'))
    exact ⟨b ++ l, by simp [collectRow, hb, hl]⟩

theorem collectAll_total {g : List (List (List Nat))} :
    ∀ xs ys : List Int, (∀ x ∈ xs, ∀ y ∈ ys, ∃ b, get2? g x y = some b) →
      ∃ l, collectAll g xs ys = some l := by
  intro xs
  induction xs with
  | nil => exact fun _ _ => ⟨[], rfl⟩
  | cons x rest ih =>
    intro ys h
    obtain ⟨l1, hl1⟩ := collectRow_total ys (h x (List.mem_cons_self _ _))
    obtain ⟨l2, hl2⟩ := ih ys (fun x' hx' => h x' (List.mem_cons_of_mem _ hx'))
    exact ⟨l1 ++ l2, by simp [collectAll, hl1, hl2]⟩

theorem collectRow_mem {g : List (List (List Nat))} {x : Int} {a : Nat} {b : List Nat}
    {y0 : Int} :
    ∀ {ys : List Int} {l : List Nat}, collectRow g x ys = some l →
      y0 ∈ ys → get2? g x y0 = some b → a ∈ b → a ∈ l := by
  intro ys
  induction ys with
  | nil => simp
  | cons y rest ih =>
    intro l hl hy hb ha
    simp only [collectRow, Option.bind_eq_bind, Option.pure_def, Option.bind_eq_some,
      Option.some.injEq] at hl
    obtain ⟨b', hb', l2, hl2, rfl⟩ := hl
    rcases List.mem_cons.mp hy with rfl | hy'
    · rw [hb] at hb'
      injection hb' with hb'
      subst hb'
      exact List.mem_append_left _ ha
    · exact List.mem_append_right _ (ih hl2 hy' hb ha)

theorem collectAll_mem {g : List (List (List Nat))} {a : Nat} {b : List Nat}
    {x0 y0 : Int} {ys : List Int} :
    ∀ {xs : List Int} {l : List Nat}, collectAll g xs ys = some l →
      x0 ∈ xs → y0 ∈ ys → get2? g x0 y0 = some b → a ∈ b → a ∈ l := by
  intro xs
  induction xs with
  | nil => simp
  | cons x rest ih =>
    intro l hl hx hy hb ha
    simp only [collectAll, Option.bind_eq_bind, Option.pure_def, Option.bind_eq_some,
      Option.some.injEq] at hl
    obtain ⟨l1, hl1, l2, hl2, rfl⟩ := hl
    rcases List.mem_cons.mp hx with rfl | hx'
    · exact List.mem_append_left _ (collectRow_mem hl1 hy hb ha)
    · exact List.mem_append_right _ (ih hl2 hx' hy hb ha)

theorem get2?_total {g : List (List α)} {x y : Int} {H : Nat}
    (hrect : ∀ row ∈ g, row.length = H)
    (hx : 0 ≤ x) (hx2 : x < (g.length : Int)) (hy : 0 ≤ y) (hy2 : y < (H : Int)) :
    ∃ b, get2? g x y = some b := by
  obtain ⟨row, hrow⟩ : ∃ row, g.get? x.toNat = some row := by
    cases h : g.get? x.toNat with
    | none => exact absurd (List.get?_eq_none.mp h) (by omega)
    | some r => exact ⟨r, rfl⟩
  have hlen : row.length = H := hrect _ (List.get?_mem hrow)
  obtain ⟨b, hb⟩ : ∃ b, row.get? y.toNat = some b := by
    cases h : row.get? y.toNat with
    | none => exact absurd (List.get?_eq_none.mp h) (by omega)
    | some r => exact ⟨r, rfl⟩
  refine ⟨b, ?_⟩
  unfold get2?
  rw [if_pos ⟨hx, hy⟩, hrow, Option.some_bind, hb]

theorem collectAll_isSome {g : List (List (List Nat))} {xs ys : List Int}
    (h : ∀ x ∈ xs, ∀ y ∈ ys, ∃ b, get2? g x y = some b) :
    (collectAll g xs ys).isSome := by
  obtain ⟨l, hl⟩ := collectAll_total xs ys h
  rw [hl]
  rfl

/-- Claim C10: for a partition whose grid has at least one bucket in each axis
(and rectangular rows, as the constructor builds), `GetNearby` is total for
every query position, in particular for positions outside the covered range:
the 3×3 neighborhood is clamped to the grid, every bucket access stays inside
the allocated grid, and a list is always returned without a fault. -/
theorem claim10_getnearby_total (p : Partition) (ylen : Nat)
    (hW : 0 < p.buckets.length) (hH : 0 < ylen)
    (hrect : ∀ row ∈ p.buckets, row.length = ylen) :
    ∀ pos : ℚ × ℚ, (p.GetNearby pos).isSome := by
  intro pos
  obtain ⟨row0, hrow0⟩ : ∃ row0, p.buckets.get? 0 = some row0 := by
    cases h : p.buckets.get? 0 with
    | none => exact absurd (List.get?_eq_none.mp h) (by omega)
    | some r => exact ⟨r, rfl⟩
  have hlen0 : row0.length = ylen := hrect _ (List.get?_mem hrow0)
  unfold Partition.GetNearby
  rw [hrow0]
  simp only [Option.some_bind]
  exact collectAll_isSome (fun x hx y hy => by
    rw [mem_intRangeIncl] at hx hy
    exact get2?_total hrect (by omega) (by omega) (by omega) (by omega))

/-- Closed witness for claim C10 at a concrete 1×1 grid and an out-of-bounds
query position. -/
theorem claim10_witness :
    0 < (Partition.init (0, 0) (1, 1) 1).buckets.length ∧ 0 < 1 ∧
    (∀ row ∈ (Partition.init (0, 0) (1, 1) 1).buckets, row.length = 1) ∧
    ((Partition.init (0, 0) (1, 1) 1).GetNearby (5, 5)).isSome := by
  refine ⟨?_, ?_, ?_, ?_⟩
  · with_unfolding_all decide
  · decide
  · intro row hrow
    have : (Partition.init (0, 0) (1, 1) 1).buckets = [[[]]] := by
      with_unfolding_all rfl
    rw [this] at hrow
    simp only [List.mem_singleton] at hrow
    rw [hrow]
    rfl
  · exact claim10_getnearby_total _ 1 (by with_unfolding_all decide) (by decide)
      (by
        intro row hrow
        have : (Partition.init (0, 0) (1, 1) 1).buckets = [[[]]] := by
          with_unfolding_all rfl
        rw [this] at hrow
        simp only [List.mem_singleton] at hrow
        rw [hrow]
        rfl) (5, 5)

theorem collisionLoop_count_le (sqrtFn : ℚ → ℚ) :
    ∀ (fuel : Nat) (s : BallSolver) (r : BallSolver × Nat),
      BallSolver.collisionLoop sqrtFn fuel s = some r → r.2 ≤ fuel := by
  intro fuel
  induction fuel with
  | zero =>
    intro s r h
    unfold BallSolver.collisionLoop at h
    injection h with h
    rw [← h]
  | succ n ih =>
    intro s r h
    unfold BallSolver.collisionLoop at h
    simp only [Option.bind_eq_bind, Option.pure_def, Option.bind_eq_some] at h
    obtain ⟨r1, hr1, h⟩ := h
    by_cases hb : r1.2 = true
    · rw [if_pos hb] at h
      simp only [Option.bind_eq_some, Option.some.injEq] at h
      obtain ⟨r2, hr2, h⟩ := h
      rw [← h]
      exact Nat.succ_le_succ (ih _ _ hr2)
    · rw [if_neg hb] at h
      simp only [Option.some.injEq] at h
      rw [← h]
      omega

/-- Claim C9: the collision sweep loop of `_Collisions` (fused here with its
consumer as `collisionLoop`, entered by `Solve` with cap 6) always terminates:
it performs at most 6 sweeps, and stops after a single sweep as soon as that
sweep finds no overlapping pair. -/
theorem claim9_loop_bound (sqrtFn : ℚ → ℚ) (s s' s1 : BallSolver) (k : Nat) (b : Bool)
    (h : BallSolver.collisionLoop sqrtFn 6 s = some (s', k))
    (hs : BallSolver.sweep sqrtFn s = some (s1, b)) :
    k ≤ 6 ∧ (b = false → k = 1) := by
  constructor
  · exact collisionLoop_count_le sqrtFn 6 s (s', k) h
  · rintro rfl
    unfold BallSolver.collisionLoop at h
    rw [hs] at h
    simp only [Option.bind_eq_bind, Option.pure_def, Option.some_bind,
      Bool.false_eq_true, if_false, Option.some.injEq] at h
    exact (congrArg Prod.snd h.symm)

/-- Closed witness for claim C9 on the empty solver: the loop succeeds, runs
exactly one sweep, and that sweep reports no collision. -/
theorem claim9_witness :
    BallSolver.collisionLoop ratSqrt 6 emptySolver = some (emptySolver, 1) ∧
    BallSolver.sweep ratSqrt emptySolver = some (emptySolver, false) ∧
    (1 ≤ 6 ∧ (false = false → 1 = 1)) := by
  refine ⟨?_, ?_, ?_⟩
  · with_unfolding_all rfl
  · with_unfolding_all rfl
  · exact claim9_loop_bound ratSqrt emptySolver emptySolver emptySolver 1 false
      (by with_unfolding_all rfl) (by with_unfolding_all rfl)

/-- Claim C4: for strictly positive masses and any restitution coefficient,
`_Solve1DCollision` conserves momentum exactly, and with `e = 1` it also
conserves kinetic energy (over exact rational arithmetic). -/
theorem claim4_momentum_energy (e mA mB vA vB : ℚ) (hA : 0 < mA) (hB : 0 < mB) :
    mA * (BallSolver.Solve1DCollision e mA mB vA vB).1 +
      mB * (BallSolver.Solve1DCollision e mA mB vA vB).2 = mA * vA + mB * vB ∧
    (e = 1 →
      mA * (BallSolver.Solve1DCollision e mA mB vA vB).1 ^ 2 +
        mB * (BallSolver.Solve1DCollision e mA mB vA vB).2 ^ 2 =
        mA * vA ^ 2 + mB * vB ^ 2) := by
  have hm : mA + mB ≠ 0 := by positivity
  constructor
  · unfold BallSolver.Solve1DCollision
    field_simp
    ring
  · rintro rfl
    unfold BallSolver.Solve1DCollision
    field_simp
    ring

/-- Closed witness for claim C4 at masses 1 and 2, speeds 3 and −1,
restitution 1. -/
theorem claim4_witness :
    (0 : ℚ) < 1 ∧ (0 : ℚ) < 2 ∧
    (1 * (BallSolver.Solve1DCollision 1 1 2 3 (-1)).1 +
       2 * (BallSolver.Solve1DCollision 1 1 2 3 (-1)).2 = 1 * 3 + 2 * (-1) ∧
     ((1 : ℚ) = 1 →
       1 * (BallSolver.Solve1DCollision 1 1 2 3 (-1)).1 ^ 2 +
         2 * (BallSolver.Solve1DCollision 1 1 2 3 (-1)).2 ^ 2 =
         1 * 3 ^ 2 + 2 * (-1) ^ 2)) :=
  ⟨by norm_num, by norm_num,
    claim4_momentum_energy 1 1 2 3 (-1) (by norm_num) (by norm_num)⟩

theorem vscale_vscale (a b : ℚ) (v : ℚ × ℚ) : vscale a (vscale b v) = vscale (a * b) v := by
  simp only [vscale, Prod.mk.injEq]
  exact ⟨by ring, by ring⟩

theorem vlengthSq_vscale (c : ℚ) (v : ℚ × ℚ) :
    vlengthSq (vscale c v) = c ^ 2 * vlengthSq v := by
  simp only [vscale, vlengthSq]
  ring

theorem vlengthSq_nonneg (v : ℚ × ℚ) : 0 ≤ vlengthSq v := by
  have h1 := mul_self_nonneg v.1
  have h2 := mul_self_nonneg v.2
  unfold vlengthSq
  linarith

/-- Claim C6 counterexample: with coinciding centers and radii 0.1, the
collision normal actually used is `(-1/4, 0)`, not the unit vector `(1, 0)`
stated by the claim (the code divides the substituted delta
`(radiusA+radiusB, 0)` by the substituted distance `radiusA+radiusB-1`). -/
theorem claim6_counterexample :
    BallSolver.collisionNormal ratSqrt (0, 0) (0, 0) (1/10) (1/10) = (-1/4, 0) ∧
    ((-1/4 : ℚ), (0 : ℚ)) ≠ ((1 : ℚ), (0 : ℚ)) := by
  constructor
  · with_unfolding_all rfl
  · intro hc
    have h1 := congrArg Prod.fst hc
    norm_num at h1

/-- Claim C6 (amended): when the centers exactly coincide, `_HandleCollision`
substitutes `dist = radiusA + radiusB - 1` and `delta = (radiusA+radiusB, 0)`,
so the collision normal used is `((rA+rB)/(rA+rB-1), 0)` (not the unit vector
`(1,0)`), and the substituted distance is nonzero — so no division by zero —
provided `radiusA + radiusB ≠ 1`. -/
theorem claim6_amended (pA pB : ℚ × ℚ) (rA rB : ℚ) (hpp : pA = pB) :
    BallSolver.collisionGeometry ratSqrt pA pB rA rB = (rA + rB - 1, (rA + rB, 0)) ∧
    BallSolver.collisionNormal ratSqrt pA pB rA rB =
      ((rA + rB) / (rA + rB - 1), 0) ∧
    (rA + rB ≠ 1 → rA + rB - 1 ≠ 0) := by
  subst hpp
  have h0 : vlengthSq (vsub pA pA) = 0 := by simp [vsub, vlengthSq]
  have hs : ratSqrt 0 = 0 := by with_unfolding_all rfl
  have hgeom : BallSolver.collisionGeometry ratSqrt pA pA rA rB =
      (rA + rB - 1, (rA + rB, 0)) := by
    simp only [BallSolver.collisionGeometry]
    rw [h0, hs]
    simp
  refine ⟨hgeom, ?_, fun h => sub_ne_zero.mpr h⟩
  unfold BallSolver.collisionNormal
  rw [hgeom]
  simp only [vscale, Prod.mk.injEq]
  exact ⟨by ring, by ring⟩

/-- Closed witness for the amended claim C6 at coinciding centers `(0,0)` and
radii 0.1. -/
theorem claim6_witness :
    BallSolver.collisionGeometry ratSqrt (0, 0) (0, 0) (1/10) (1/10) =
      (1/10 + 1/10 - 1, (1/10 + 1/10, 0)) ∧
    BallSolver.collisionNormal ratSqrt (0, 0) (0, 0) (1/10) (1/10) =
      ((1/10 + 1/10) / (1/10 + 1/10 - 1), 0) ∧
    ((1/10 + 1/10 : ℚ) ≠ 1 → (1/10 + 1/10 : ℚ) - 1 ≠ 0) :=
  claim6_amended (0, 0) (0, 0) (1/10) (1/10) rfl

/-- Claim C5 counterexample: for an overlapping pair with masses 3 and 1
(equal radii 1, centers `(0,0)` and `(1,0)`, both at rest, roomy world), the
heavier ball A is displaced by `(-3/4, 0)` and the lighter ball B by
`(1/4, 0)`: the heavier ball moves three times as far, contradicting the
claim's "splitting the depth inversely proportional to mass so the heavier
ball moves less". -/
theorem claim5_counterexample :
    (scenarioHeavyLight.bind (fun s => BallSolver.HandleCollision ratSqrt s 0 1)).map
      (fun s => s.positions) = some [(-3/4, 0), (5/4, 0)] ∧
    vlengthSq (vsub (-3/4, 0) (0, 0)) > vlengthSq (vsub (5/4, 0) (1, 0)) ∧
    (3 : ℚ) > 1 := by
  refine ⟨by with_unfolding_all rfl, ?_, by norm_num⟩
  simp only [vsub, vlengthSq]
  norm_num

/-- Claim C5 (amended): in the non-degenerate case `_HandleCollision`
translates ball A by `-normal * d * massA/(massA+massB)` and ball B by
`+normal * d * massB/(massA+massB)` where `d = radiusA + radiusB - dist` —
the depth split is directly proportional to each ball's own mass, so the
heavier ball moves more, not less. -/
theorem claim5_amended (sqrtFn : ℚ → ℚ) (pA pB : ℚ × ℚ) (rA rB mA mB : ℚ)
    (hnd : sqrtFn (vlengthSq (vsub pB pA)) ≠ 0) :
    (BallSolver.overlapOffsets sqrtFn pA pB rA rB mA mB).1 =
      vscale (-((rA + rB - sqrtFn (vlengthSq (vsub pB pA))) * (mA / (mA + mB))))
        (BallSolver.collisionNormal sqrtFn pA pB rA rB) ∧
    (BallSolver.overlapOffsets sqrtFn pA pB rA rB mA mB).2 =
      vscale ((rA + rB - sqrtFn (vlengthSq (vsub pB pA))) * (mB / (mA + mB)))
        (BallSolver.collisionNormal sqrtFn pA pB rA rB) ∧
    (0 < mB → mB ≤ mA →
      vlengthSq (BallSolver.overlapOffsets sqrtFn pA pB rA rB mA mB).2 ≤
        vlengthSq (BallSolver.overlapOffsets sqrtFn pA pB rA rB mA mB).1) := by
  have hgeom : BallSolver.collisionGeometry sqrtFn pA pB rA rB =
      (sqrtFn (vlengthSq (vsub pB pA)), vsub pB pA) := by
    unfold BallSolver.collisionGeometry
    rw [if_neg hnd]
  have hoff : BallSolver.overlapOffsets sqrtFn pA pB rA rB mA mB =
      (vscale (-((rA + rB - sqrtFn (vlengthSq (vsub pB pA))) * (mA / (mA + mB))))
        (BallSolver.collisionNormal sqrtFn pA pB rA rB),
       vscale ((rA + rB - sqrtFn (vlengthSq (vsub pB pA))) * (mB / (mA + mB)))
        (BallSolver.collisionNormal sqrtFn pA pB rA rB)) := by
    simp only [BallSolver.overlapOffsets, hgeom]
    rw [vscale_vscale, vscale_vscale]
    simp only [Prod.mk.injEq]
    constructor <;> (congr 1; ring)
  refine ⟨by rw [hoff], by rw [hoff], ?_⟩
  intro hB hAB
  rw [hoff]
  simp only [vlengthSq_vscale]
  have hL : 0 ≤ vlengthSq (BallSolver.collisionNormal sqrtFn pA pB rA rB) :=
    vlengthSq_nonneg _
  have hsq : ((rA + rB - sqrtFn (vlengthSq (vsub pB pA))) * (mB / (mA + mB))) ^ 2 ≤
      (-((rA + rB - sqrtFn (vlengthSq (vsub pB pA))) * (mA / (mA + mB)))) ^ 2 := by
    have hm2 : mB ^ 2 ≤ mA ^ 2 := by nlinarith
    rw [div_eq_mul_inv, div_eq_mul_inv]
    generalize (mA + mB)⁻¹ = w
    generalize rA + rB - sqrtFn (vlengthSq (vsub pB pA)) = d
    nlinarith [mul_nonneg (sq_nonneg (d * w)) (sub_nonneg.mpr hm2)]
  exact mul_le_mul_of_nonneg_right hsq hL

/-- Closed witness for the amended claim C5: heavy ball mass 3, light ball
mass 1, unit radii, centers `(0,0)` and `(1,0)`. -/
theorem claim5_witness :
    ratSqrt (vlengthSq (vsub (1, 0) (0, 0))) ≠ 0 ∧
    ((BallSolver.overlapOffsets ratSqrt (0, 0) (1, 0) 1 1 3 1).1 =
      vscale (-((1 + 1 - ratSqrt (vlengthSq (vsub (1, 0) (0, 0)))) * (3 / (3 + 1))))
        (BallSolver.collisionNormal ratSqrt (0, 0) (1, 0) 1 1) ∧
    (BallSolver.overlapOffsets ratSqrt (0, 0) (1, 0) 1 1 3 1).2 =
      vscale ((1 + 1 - ratSqrt (vlengthSq (vsub (1, 0) (0, 0)))) * (1 / (3 + 1)))
        (BallSolver.collisionNormal ratSqrt (0, 0) (1, 0) 1 1) ∧
    ((0 : ℚ) < 1 → (1 : ℚ) ≤ 3 →
      vlengthSq (BallSolver.overlapOffsets ratSqrt (0, 0) (1, 0) 1 1 3 1).2 ≤
        vlengthSq (BallSolver.overlapOffsets ratSqrt (0, 0) (1, 0) 1 1 3 1).1)) :=
  ⟨by with_unfolding_all decide,
   claim5_amended ratSqrt (0, 0) (1, 0) 1 1 3 1 (by with_unfolding_all decide)⟩

/-- Claim C2 counterexample: in the claim's exact scenario (radii 0.1, masses
1, centers `(∓0.15, 0)`, velocities `(±1, 0)`, restitution 1, zero gravity),
one `Solve(0.01)` call leaves the velocities unchanged — they do not swap —
because the balls (center distance 0.3 > 0.2) never overlap during the
step. -/
theorem claim2_counterexample :
    (scenarioTwoBalls.bind (fun s => BallSolver.Solve ratSqrt s (1/100))).map
      (fun s => (s.positions, s.velocities)) =
      some ([(-7/50, 0), (7/50, 0)], [(1, 0), (-1, 0)]) ∧
    ([((1 : ℚ), (0 : ℚ)), (-1, 0)] ≠ [((-1 : ℚ), (0 : ℚ)), (1, 0)]) := by
  constructor
  · with_unfolding_all rfl
  · with_unfolding_all decide

/-- Claim C2 (amended): in the claim's scenario the two balls never overlap
during the step (center distance 0.3 against a contact distance of 0.2), so
one `Solve(0.01)` call performs no collision response: the velocities stay
`(±1, 0)` and the centers advance to `(∓0.14, 0)`, at distance 0.28 — not
touching. -/
theorem claim2_amended :
    (scenarioTwoBalls.bind (fun s => BallSolver.Solve ratSqrt s (1/100))).map
      (fun s => (s.positions, s.velocities)) =
      some ([(-7/50, 0), (7/50, 0)], [(1, 0), (-1, 0)]) ∧
    (7/50 : ℚ) - (-7/50) = 7/25 ∧ (7/25 : ℚ) ≠ 1/5 := by
  refine ⟨by with_unfolding_all rfl, by norm_num, by norm_num⟩

/-- Claim C1 counterexample: a ball that starts inside the world bounds
(center `(8.5, 5)`, radius 1, world `[0,10]²`) moving right at speed 10 ends
one `Solve(0.1)` call at `(9.5, 5)`, violating
`position.x ≤ maxRange.x - radius = 9`: the final position-integration step
of `Solve` runs after all wall clamping. -/
theorem claim1_counterexample :
    ((0 : ℚ) + 1 ≤ 17/2 ∧ (17/2 : ℚ) ≤ 10 - 1 ∧ (0 : ℚ) + 1 ≤ 5 ∧ (5 : ℚ) ≤ 10 - 1) ∧
    (scenarioFastBall.bind (fun s => BallSolver.Solve ratSqrt s (1/10))).map
      (fun s => s.positions) = some [(19/2, 5)] ∧
    ¬ ((19/2 : ℚ) ≤ 10 - 1) := by
  refine ⟨by norm_num, by with_unfolding_all rfl, by norm_num⟩

/-- Claim C7 failing input, evaluated: ids 0 and 1 share the single bucket
(contents `[0, 1]`); re-updating id 0 at the identical position — same bucket
— still removes and re-appends it, so the bucket order changes to `[1, 0]`.
The source's guard `oldBucketIndices != bucketIndices` compares JS array
references, which always differ, so the removal is never skipped. -/
theorem claim7_code_eval :
    scenarioSameBucket.map (fun p => p.buckets) = some [[[1, 0]]] ∧
    ([[[1, 0]]] : List (List (List Nat))) ≠ [[[0, 1]]] := by
  constructor
  · with_unfolding_all rfl
  · decide

theorem FrameEq_refl (s : BallSolver) : FrameEq s s := ⟨rfl, rfl, rfl⟩

theorem FrameEq_trans {a b c : BallSolver} (h1 : FrameEq a b) (h2 : FrameEq b c) :
    FrameEq a c :=
  ⟨h2.1.trans h1.1, h2.2.1.trans h1.2.1, h2.2.2.trans h1.2.2⟩

theorem ballInBounds_of_FrameEq {s t : BallSolver} {p : ℚ × ℚ} {r : ℚ}
    (hf : FrameEq s t) (h : ballInBounds s p r) : ballInBounds t p r := by
  unfold ballInBounds at h ⊢
  rw [hf.1, hf.2.1]
  exact h

theorem RadiiFit_of_FrameEq {s t : BallSolver} (hf : FrameEq s t) (h : RadiiFit s) :
    RadiiFit t := by
  unfold RadiiFit at h ⊢
  rw [hf.1, hf.2.1, hf.2.2]
  exact h

theorem foldlM_preserve {α β : Type} {g : α → β → Option α} {P : α → Prop}
    (hstep : ∀ a b a', P a → g a b = some a' → P a') :
    ∀ (L : List β) (a a' : α), P a → L.foldlM g a = some a' → P a' := by
  intro L
  induction L with
  | nil =>
    intro a a' hP h
    simp only [List.foldlM_nil] at h
    injection h with h
    rw [← h]
    exact hP
  | cons b rest ih =>
    intro a a' hP h
    simp only [List.foldlM_cons, Option.bind_eq_bind, Option.bind_eq_some] at h
    obtain ⟨a1, h1, h2⟩ := h
    exact ih a1 a' (hstep a b a1 hP h1) h2

theorem clamp1_fst {hi r : ℚ} (x a b : ℚ) :
    (if x > hi - r then ((hi - r : ℚ), a) else (x, b)).1 ≤ hi - r := by
  split_ifs with hc
  · exact le_refl _
  · push_neg at hc
    simpa using hc

theorem clamp2_fst {lo hi r : ℚ} (hfit : lo + r ≤ hi - r) (q1 : ℚ × ℚ)
    (c : ℚ) (hq1 : q1.1 ≤ hi - r) :
    lo + r ≤ (if q1.1 < lo + r then ((lo + r : ℚ), c) else q1).1 ∧
    (if q1.1 < lo + r then ((lo + r : ℚ), c) else q1).1 ≤ hi - r := by
  split_ifs with hc
  · exact ⟨le_refl _, hfit⟩
  · push_neg at hc
    exact ⟨hc, hq1⟩

theorem handleWall_spec {s t : BallSolver} {i : Nat}
    (h : s.HandleWallCollisions i = some t) :
    FrameEq s t ∧ t.masses = s.masses ∧ t.partition = s.partition ∧
    t.positions.length = s.positions.length ∧
    (∀ j, j ≠ i → t.positions.get? j = s.positions.get? j) ∧
    (RadiiFit s → ∀ p r, t.positions.get? i = some p → t.radii.get? i = some r →
      ballInBounds t p r) := by
  simp only [BallSolver.HandleWallCollisions, Option.bind_eq_bind, Option.pure_def,
    Option.bind_eq_some, Option.some.injEq] at h
  obtain ⟨p, hp, v, hv, r, hr, ht⟩ := h
  subst ht
  obtain ⟨hip, -⟩ := List.get?_eq_some.mp hp
  refine ⟨⟨rfl, rfl, rfl⟩, rfl, rfl, List.length_set _ _ _, ?_, ?_⟩
  · intro j hj
    exact List.get?_set_ne _ _ (fun hc => hj hc.symm)
  · intro hfit p' r' hp' hr'
    rw [List.get?_set_eq_of_lt _ hip] at hp'
    injection hp' with hp'
    have hr'' : s.radii.get? i = some r' := hr'
    rw [hr] at hr''
    injection hr'' with hr''
    subst hr''
    obtain ⟨hfx, hfy⟩ := hfit r (List.get?_mem hr)
    subst hp'
    unfold ballInBounds
    refine ⟨(clamp2_fst ?_ _ _ (clamp1_fst _ _ _)).1,
            (clamp2_fst ?_ _ _ (clamp1_fst _ _ _)).2,
            (clamp2_fst ?_ _ _ (clamp1_fst _ _ _)).1,
            (clamp2_fst ?_ _ _ (clamp1_fst _ _ _)).2⟩ <;> linarith

theorem wall_keeps_contained {s t : BallSolver} {i : Nat}
    (h : s.HandleWallCollisions i = some t) (hfit : RadiiFit s)
    (hc : ContainedAll s) : ContainedAll t := by
  obtain ⟨hf, -, -, -, hother, hself⟩ := handleWall_spec h
  intro j p r hp hr
  by_cases hj : j = i
  · subst hj
    exact hself hfit p r hp hr
  · rw [hother j hj] at hp
    rw [hf.2.2] at hr
    exact ballInBounds_of_FrameEq hf (hc j p r hp hr)

theorem applyOffsets_spec {s t : BallSolver} {iA iB : Nat} {pA offA offB : ℚ × ℚ}
    (h : BallSolver.applyOffsets s iA iB pA offA offB = some t) :
    FrameEq s t ∧ t.masses = s.masses ∧ t.velocities = s.velocities ∧
    t.partition = s.partition ∧ t.positions.length = s.positions.length ∧
    (∀ j, j ≠ iA → j ≠ iB → t.positions.get? j = s.positions.get? j) := by
  simp only [BallSolver.applyOffsets, Option.bind_eq_bind, Option.pure_def,
    Option.bind_eq_some, Option.some.injEq] at h
  obtain ⟨curB, hcur, ht⟩ := h
  subst ht
  refine ⟨⟨rfl, rfl, rfl⟩, rfl, rfl, rfl, by simp, ?_⟩
  intro j hjA hjB
  show ((s.positions.set iA (vadd pA offA)).set iB (vadd curB offB)).get? j =
    s.positions.get? j
  rw [List.get?_set_ne _ _ (fun hc => hjB hc.symm),
    List.get?_set_ne _ _ (fun hc => hjA hc.symm)]

theorem collisionRegister_spec {s t : BallSolver} {iA iB : Nat}
    (h : BallSolver.collisionRegister s iA iB = some t) :
    t.positions = s.positions ∧ t.velocities = s.velocities ∧ t.masses = s.masses ∧
    t.radii = s.radii ∧ t.minRange = s.minRange ∧ t.maxRange = s.maxRange := by
  simp only [BallSolver.collisionRegister, Option.bind_eq_bind, Option.pure_def,
    Option.bind_eq_some, Option.some.injEq] at h
  obtain ⟨pA1, h1, part1, h2, pB1, h3, part2, h4, ht⟩ := h
  subst ht
  exact ⟨rfl, rfl, rfl, rfl, rfl, rfl⟩

theorem velocityResponse_spec {s t : BallSolver} {iA iB : Nat} {n : ℚ × ℚ}
    {mA mB e : ℚ} (h : BallSolver.velocityResponse s iA iB n mA mB e = some t) :
    t.positions = s.positions ∧ t.masses = s.masses ∧ t.radii = s.radii ∧
    t.minRange = s.minRange ∧ t.maxRange = s.maxRange := by
  simp only [BallSolver.velocityResponse, Option.bind_eq_bind, Option.pure_def,
    Option.bind_eq_some, Option.some.injEq] at h
  obtain ⟨vA, hvA, vB, hvB, ht⟩ := h
  split at ht
  · injection ht with ht
    subst ht
    exact ⟨rfl, rfl, rfl, rfl, rfl⟩
  · simp only [Option.bind_eq_some, Option.some.injEq] at ht
    obtain ⟨curVB, hcv, ht⟩ := ht
    subst ht
    exact ⟨rfl, rfl, rfl, rfl, rfl⟩

theorem handleCollision_spec {sqrtFn : ℚ → ℚ} {s t : BallSolver} {iA iB : Nat}
    (h : BallSolver.HandleCollision sqrtFn s iA iB = some t)
    (hfit : RadiiFit s) (hc : ContainedAll s) :
    FrameEq s t ∧ t.positions.length = s.positions.length ∧ ContainedAll t := by
  simp only [BallSolver.HandleCollision, Option.bind_eq_bind, Option.bind_eq_some] at h
  obtain ⟨pA, hpA, mA, hmA, rA, hrA, pB, hpB, mB, hmB, rB, hrB,
    s1, hs1, s2, hs2, s3, hs3, s5, hs5, hresp⟩ := h
  obtain ⟨haoF, -, -, -, haoL, haoO⟩ := applyOffsets_spec hs1
  obtain ⟨hw2F, -, -, hw2L, hw2O, hw2S⟩ := handleWall_spec hs2
  obtain ⟨hw3F, -, -, hw3L, hw3O, hw3S⟩ := handleWall_spec hs3
  obtain ⟨hregP, -, -, hregR, hregMin, hregMax⟩ := collisionRegister_spec hs5
  obtain ⟨hvrP, -, hvrR, hvrMin, hvrMax⟩ := velocityResponse_spec hresp
  have hfit1 : RadiiFit s1 := RadiiFit_of_FrameEq haoF hfit
  have hfit2 : RadiiFit s2 := RadiiFit_of_FrameEq hw2F hfit1
  have hF3 : FrameEq s s3 := FrameEq_trans (FrameEq_trans haoF hw2F) hw3F
  have hF35 : FrameEq s3 s5 := ⟨hregMin, hregMax, hregR⟩
  have hF5t : FrameEq s5 t := ⟨hvrMin, hvrMax, hvrR⟩
  have hFst : FrameEq s t := FrameEq_trans hF3 (FrameEq_trans hF35 hF5t)
  have hc3 : ContainedAll s3 := by
    intro j p r hp hr
    by_cases hjB : j = iB
    · subst hjB
      exact hw3S hfit2 p r hp hr
    · by_cases hjA : j = iA
      · subst hjA
        rw [hw3O j hjB] at hp
        rw [hw3F.2.2] at hr
        exact ballInBounds_of_FrameEq hw3F (hw2S hfit1 p r hp hr)
      · rw [hw3O j hjB, hw2O j hjA, haoO j hjA hjB] at hp
        rw [hF3.2.2] at hr
        exact ballInBounds_of_FrameEq hF3 (hc j p r hp hr)
  refine ⟨hFst, ?_, ?_⟩
  · rw [hvrP, hregP, hw3L, hw2L, haoL]
  · intro j p r hp hr
    rw [hvrP, hregP] at hp
    rw [hFst.2.2, ← hF3.2.2] at hr
    exact ballInBounds_of_FrameEq (FrameEq_trans hF35 hF5t) (hc3 j p r hp hr)

theorem processNearby_preserve {sqrtFn : ℚ → ℚ} {s : BallSolver} {iA : Nat}
    {nearby : List Nat} {found : Bool} {r : BallSolver × Bool}
    (h : BallSolver.processNearby sqrtFn s iA nearby found = some r)
    (hfit : RadiiFit s) (hc : ContainedAll s) :
    FrameEq s r.1 ∧ ContainedAll r.1 := by
  unfold BallSolver.processNearby at h
  refine foldlM_preserve (P := fun acc => FrameEq s acc.1 ∧ ContainedAll acc.1)
    ?_ nearby (s, found) r ⟨FrameEq_refl s, hc⟩ h
  intro acc iB acc' hP hstep
  by_cases hAB : iA = iB
  · rw [if_pos hAB] at hstep
    injection hstep with hstep
    rw [← hstep]
    exact hP
  · rw [if_neg hAB] at hstep
    simp only [Option.bind_eq_bind, Option.pure_def, Option.bind_eq_some,
      Option.some.injEq] at hstep
    obtain ⟨c, hcol, hstep⟩ := hstep
    by_cases hcv : c = true
    · rw [if_pos hcv] at hstep
      simp only [Option.bind_eq_bind, Option.bind_eq_some, Option.some.injEq] at hstep
      obtain ⟨s1, h1, s2, h2, s3, h3, hacc⟩ := hstep
      have hfitA : RadiiFit acc.1 := RadiiFit_of_FrameEq hP.1 hfit
      obtain ⟨hF1, -, hC1⟩ := handleCollision_spec h1 hfitA hP.2
      have hfit1 : RadiiFit s1 := RadiiFit_of_FrameEq hF1 hfitA
      obtain ⟨hF2, -, -, -, -, -⟩ := handleWall_spec h2
      have hC2 : ContainedAll s2 := wall_keeps_contained h2 hfit1 hC1
      have hfit2 : RadiiFit s2 := RadiiFit_of_FrameEq hF2 hfit1
      obtain ⟨hF3, -, -, -, -, -⟩ := handleWall_spec h3
      have hC3 : ContainedAll s3 := wall_keeps_contained h3 hfit2 hC2
      rw [← hacc]
      exact ⟨FrameEq_trans hP.1 (FrameEq_trans hF1 (FrameEq_trans hF2 hF3)), hC3⟩
    · rw [if_neg hcv] at hstep
      injection hstep with hstep
      rw [← hstep]
      exact hP

theorem sweepAux_preserve {sqrtFn : ℚ → ℚ} {s : BallSolver} {L : List Nat}
    {found : Bool} {r : BallSolver × Bool}
    (h : BallSolver.sweepAux sqrtFn s L found = some r)
    (hfit : RadiiFit s) (hc : ContainedAll s) :
    FrameEq s r.1 ∧ ContainedAll r.1 := by
  unfold BallSolver.sweepAux at h
  refine foldlM_preserve (P := fun acc => FrameEq s acc.1 ∧ ContainedAll acc.1)
    ?_ L (s, found) r ⟨FrameEq_refl s, hc⟩ h
  intro acc iA acc' hP hstep
  simp only [Option.bind_eq_bind, Option.bind_eq_some] at hstep
  obtain ⟨pA, hpA, nearby, hnb, hPN⟩ := hstep
  obtain ⟨hF, hC⟩ := processNearby_preserve hPN (RadiiFit_of_FrameEq hP.1 hfit) hP.2
  exact ⟨FrameEq_trans hP.1 hF, hC⟩

theorem sweep_preserve {sqrtFn : ℚ → ℚ} {s : BallSolver} {r : BallSolver × Bool}
    (h : BallSolver.sweep sqrtFn s = some r)
    (hfit : RadiiFit s) (hc : ContainedAll s) :
    FrameEq s r.1 ∧ ContainedAll r.1 :=
  sweepAux_preserve h hfit hc

theorem collisionLoop_preserve {sqrtFn : ℚ → ℚ} :
    ∀ (fuel : Nat) {s : BallSolver} {r : BallSolver × Nat},
      BallSolver.collisionLoop sqrtFn fuel s = some r →
      RadiiFit s → ContainedAll s → FrameEq s r.1 ∧ ContainedAll r.1 := by
  intro fuel
  induction fuel with
  | zero =>
    intro s r h hfit hc
    unfold BallSolver.collisionLoop at h
    injection h with h
    rw [← h]
    exact ⟨FrameEq_refl s, hc⟩
  | succ n ih =>
    intro s r h hfit hc
    unfold BallSolver.collisionLoop at h
    simp only [Option.bind_eq_bind, Option.pure_def, Option.bind_eq_some,
      Option.some.injEq] at h
    obtain ⟨r1, hr1, h⟩ := h
    obtain ⟨hF1, hC1⟩ := sweep_preserve hr1 hfit hc
    by_cases hb : r1.2 = true
    · rw [if_pos hb] at h
      simp only [Option.bind_eq_bind, Option.bind_eq_some, Option.some.injEq] at h
      obtain ⟨r2, hr2, h⟩ := h
      obtain ⟨hF2, hC2⟩ := ih hr2 (RadiiFit_of_FrameEq hF1 hfit) hC1
      rw [← h]
      exact ⟨FrameEq_trans hF1 hF2, hC2⟩
    · rw [if_neg hb] at h
      injection h with h
      rw [← h]
      exact ⟨hF1, hC1⟩

theorem wallPass_aux :
    ∀ (L : List Nat) (s t : BallSolver),
      L.foldlM (fun u i => u.HandleWallCollisions i) s = some t → RadiiFit s →
      FrameEq s t ∧ t.positions.length = s.positions.length ∧
      (∀ j, j ∉ L → t.positions.get? j = s.positions.get? j) ∧
      (∀ j ∈ L, ∀ p r, t.positions.get? j = some p → t.radii.get? j = some r →
        ballInBounds t p r) := by
  intro L
  induction L with
  | nil =>
    intro s t h hfit
    simp only [List.foldlM_nil] at h
    injection h with h
    subst h
    exact ⟨FrameEq_refl s, rfl, fun j _ => rfl, by simp⟩
  | cons i rest ih =>
    intro s t h hfit
    simp only [List.foldlM_cons, Option.bind_eq_bind, Option.bind_eq_some] at h
    obtain ⟨s1, h1, h2⟩ := h
    obtain ⟨hF1, -, -, hL1, hO1, hS1⟩ := handleWall_spec h1
    have hfit1 : RadiiFit s1 := RadiiFit_of_FrameEq hF1 hfit
    obtain ⟨hF2, hL2, hO2, hS2⟩ := ih s1 t h2 hfit1
    refine ⟨FrameEq_trans hF1 hF2, hL2.trans hL1, ?_, ?_⟩
    · intro j hj
      rw [hO2 j (fun hm => hj (List.mem_cons_of_mem _ hm)),
        hO1 j (fun he => hj (he ▸ List.mem_cons_self _ _))]
    · intro j hj p r hp hr
      by_cases hmem : j ∈ rest
      · exact hS2 j hmem p r hp hr
      · have hji : j = i := by
          rcases List.mem_cons.mp hj with he | hm
          · exact he
          · exact absurd hm hmem
        subst hji
        rw [hO2 j hmem] at hp
        rw [hF2.2.2] at hr
        exact ballInBounds_of_FrameEq hF2 (hS1 hfit p r hp hr)

theorem wallPass_contained {s t : BallSolver} (h : s.wallPass = some t)
    (hfit : RadiiFit s) : FrameEq s t ∧ ContainedAll t := by
  obtain ⟨hF, hL, -, hS⟩ := wallPass_aux (List.range s.positions.length) s t h hfit
  refine ⟨hF, ?_⟩
  intro j p r hp hr
  have hj : j < s.positions.length := by
    obtain ⟨hlt, -⟩ := List.get?_eq_some.mp hp
    omega
  exact hS j (List.mem_range.mpr hj) p r hp hr

/-- Claim C1 (amended): after the wall-resolution pass and the ball-ball
collision pass of `Solve` — i.e. on the state to which gravity and position
integration are then applied — every ball's center satisfies
`minRange + radius ≤ position ≤ maxRange - radius` on both axes, for any
starting state whose balls' diameters fit between the walls.  After the final
position-integration step this containment can be violated until the next
`Solve` call clamps the ball again (see the counterexample). -/
theorem claim1_amended (sqrtFn : ℚ → ℚ) (s s' : BallSolver) (hfit : RadiiFit s)
    (h : BallSolver.preIntegration sqrtFn s = some s') : ContainedAll s' := by
  unfold BallSolver.preIntegration at h
  simp only [Option.bind_eq_bind, Option.pure_def, Option.bind_eq_some,
    Option.some.injEq] at h
  obtain ⟨s1, h1, r, hr, h⟩ := h
  obtain ⟨hF1, hC1⟩ := wallPass_contained h1 hfit
  obtain ⟨-, hC2⟩ := collisionLoop_preserve 6 hr (RadiiFit_of_FrameEq hF1 hfit) hC1
  rw [← h]
  exact hC2

/-- Closed witness for the amended claim C1: a single out-of-bounds resting
ball is clamped back to `(9, 5)` by the two phases, and that position respects
all four walls. -/
theorem claim1_witness :
    BallSolver.preIntegration ratSqrt scenarioClampBall = some scenarioClamped ∧
    ballInBounds scenarioClamped (9, 5) 1 := by
  have hpre : BallSolver.preIntegration ratSqrt scenarioClampBall =
      some scenarioClamped := by with_unfolding_all rfl
  refine ⟨hpre, ?_⟩
  have hfit : RadiiFit scenarioClampBall := by
    intro r hr
    simp only [scenarioClampBall, List.mem_singleton] at hr
    subst hr
    norm_num [scenarioClampBall]
  exact claim1_amended ratSqrt scenarioClampBall scenarioClamped hfit hpre 0 (9, 5) 1
    (by with_unfolding_all rfl) (by with_unfolding_all rfl)

theorem bucket_in_grid {minR maxR : ℚ × ℚ} {maxD : ℚ} (hcell : 0 < maxD)
    {pos : ℚ × ℚ} (hpos : inRange minR maxR pos) {p : Partition}
    (hc : p.cellSize = maxD) (hm : p.minRange = minR) :
    0 ≤ (p.PositionToBucketIndices pos).1 ∧
    (p.PositionToBucketIndices pos).1 < (gridW minR maxR maxD : Int) ∧
    0 ≤ (p.PositionToBucketIndices pos).2 ∧
    (p.PositionToBucketIndices pos).2 < (gridH minR maxR maxD : Int) := by
  obtain ⟨h1, h2, h3, h4⟩ := hpos
  unfold Partition.PositionToBucketIndices
  rw [hc, hm]
  have hWx : (gridW minR maxR maxD : Int) = max 0 ⌈(maxR.1 - minR.1) / maxD⌉ :=
    Int.toNat_of_nonneg (le_max_left 0 _)
  have hWy : (gridH minR maxR maxD : Int) = max 0 ⌈(maxR.2 - minR.2) / maxD⌉ :=
    Int.toNat_of_nonneg (le_max_left 0 _)
  have hx0 : 0 ≤ ⌊(pos.1 - minR.1) / maxD⌋ :=
    Int.floor_nonneg.mpr (div_nonneg (by linarith) hcell.le)
  have hy0 : 0 ≤ ⌊(pos.2 - minR.2) / maxD⌋ :=
    Int.floor_nonneg.mpr (div_nonneg (by linarith) hcell.le)
  have hxlt : ⌊(pos.1 - minR.1) / maxD⌋ < ⌈(maxR.1 - minR.1) / maxD⌉ := by
    apply Int.floor_lt.mpr
    calc (pos.1 - minR.1) / maxD
        < (maxR.1 - minR.1) / maxD :=
          (div_lt_div_iff_of_pos_right hcell).mpr (by linarith)
      _ ≤ (⌈(maxR.1 - minR.1) / maxD⌉ : ℚ) := Int.le_ceil _
  have hylt : ⌊(pos.2 - minR.2) / maxD⌋ < ⌈(maxR.2 - minR.2) / maxD⌉ := by
    apply Int.floor_lt.mpr
    calc (pos.2 - minR.2) / maxD
        < (maxR.2 - minR.2) / maxD :=
          (div_lt_div_iff_of_pos_right hcell).mpr (by linarith)
      _ ≤ (⌈(maxR.2 - minR.2) / maxD⌉ : ℚ) := Int.le_ceil _
  refine ⟨hx0, ?_, hy0, ?_⟩ <;> omega

theorem partInv_init (minR maxR : ℚ × ℚ) (maxD : ℚ) :
    PartInv minR maxR maxD (fun _ => none) (Partition.init minR maxR maxD) := by
  have hget : ∀ x y b, get2? (Partition.init minR maxR maxD).buckets x y = some b →
      b = [] := by
    intro x y b hb
    unfold get2? at hb
    split at hb
    · rw [Option.bind_eq_some] at hb
      obtain ⟨row, hrow, hb⟩ := hb
      have hrowmem := List.get?_mem hrow
      simp only [Partition.init] at hrowmem
      have := List.eq_of_mem_replicate hrowmem
      subst this
      have := List.eq_of_mem_replicate (List.get?_mem hb)
      exact this
    · exact absurd hb (by simp)
  refine ⟨rfl, rfl, by simp [Partition.init], ?_, ?_, fun id h => rfl, ?_, ?_⟩
  · intro row hrow
    simp only [Partition.init] at hrow
    rw [List.eq_of_mem_replicate hrow]
    exact List.length_replicate _ _
  · intro id pos h
    exact absurd h (by simp)
  · intro id hnone x y b hb
    rw [hget x y b hb]
    rfl
  · intro id bi hmg
    exact absurd hmg (by simp [Partition.init, mapGet])

theorem ptb_congr {p q : Partition} (hc : q.cellSize = p.cellSize)
    (hm : q.minRange = p.minRange) (pos : ℚ × ℚ) :
    q.PositionToBucketIndices pos = p.PositionToBucketIndices pos := by
  unfold Partition.PositionToBucketIndices
  rw [hc, hm]

theorem partInv_update {minR maxR : ℚ × ℚ} {maxD : ℚ} {f : Nat → Option (ℚ × ℚ)}
    {p p' : Partition} {id : Nat} {pos : ℚ × ℚ}
    (inv : PartInv minR maxR maxD f p) (hcell : 0 < maxD)
    (hpos : inRange minR maxR pos) (hupd : p.Update id pos = some p') :
    PartInv minR maxR maxD (fun j => if j = id then some pos else f j) p' := by
  obtain ⟨hbx0, hbxW, hby0, hbyH⟩ := bucket_in_grid hcell hpos inv.cell inv.minr
  unfold Partition.Update at hupd
  set B := p.PositionToBucketIndices pos with hB
  have heta : (B.1, B.2) = B := rfl
  cases hmg : mapGet p.idToBucket id with
  | none =>
    simp only [hmg, Option.bind_eq_bind, Option.pure_def, Option.bind_eq_some,
      Option.some.injEq] at hupd
    obtain ⟨nb, hnb, hp'⟩ := hupd
    set G := set2 p.buckets B.1 B.2 (nb ++ [id]) with hG
    set M := mapSet p.idToBucket id B with hM
    have hp2 : p' = { p with buckets := G, idToBucket := M } := hp'.symm
    subst hp2
    have hcc : Partition.cellSize { p with buckets := G, idToBucket := M } =
        p.cellSize := rfl
    have hmm2 : Partition.minRange { p with buckets := G, idToBucket := M } =
        p.minRange := rfl
    have hself : get2? G B.1 B.2 = some (nb ++ [id]) := by
      rw [hG]
      exact get2?_set2_self hnb
    have hne : ∀ x y, (x, y) ≠ B → get2? G x y = get2? p.buckets x y := by
      intro x y h
      rw [hG]
      exact get2?_set2_ne h
    have hval : ∀ x y bkt, get2? G x y = some bkt →
        ((x, y) = B ∧ bkt = nb ++ [id]) ∨
        ((x, y) ≠ B ∧ get2? p.buckets x y = some bkt) := by
      intro x y bkt hbkt
      by_cases hxy : (x, y) = B
      · left
        refine ⟨hxy, ?_⟩
        have hx : x = B.1 := congrArg Prod.fst hxy
        have hy : y = B.2 := congrArg Prod.snd hxy
        rw [hx, hy, hself] at hbkt
        injection hbkt with hbkt
        exact hbkt.symm
      · right
        rw [hne x y hxy] at hbkt
        exact ⟨hxy, hbkt⟩
    have hlenG : G.length = p.buckets.length := by
      rw [hG]
      exact length_set2 _ _ _ _
    have hmapself : mapGet M id = some B := by
      rw [hM]
      exact mapGet_mapSet_self _ _ _
    have hmapne : ∀ j, j ≠ id → mapGet M j = mapGet p.idToBucket j := by
      intro j hj
      rw [hM]
      exact mapGet_mapSet_ne _ _ _ _ (fun h => hj h.symm)
    refine ⟨hcc.trans inv.cell, hmm2.trans inv.minr, ?_, ?_, ?_, ?_, ?_, ?_⟩
    · show G.length = _
      rw [hlenG]
      exact inv.width
    · show ∀ row ∈ G, row.length = gridH minR maxR maxD
      rw [hG]
      exact set2_rect (P := fun n => n = gridH minR maxR maxD)
        (fun row _ hP => by rw [List.length_set]; exact hP) inv.rect
    · intro j pos0 hj
      have hj' : (if j = id then some pos else f j) = some pos0 := hj
      by_cases hji : j = id
      · subst hji
        rw [if_pos rfl] at hj'
        injection hj' with hj'
        subst hj'
        refine ⟨hpos, ?_⟩
        rw [ptb_congr hcc hmm2, ← hB]
        exact hmapself
      · rw [if_neg hji] at hj'
        obtain ⟨hin, hmap⟩ := inv.mapped j pos0 hj'
        refine ⟨hin, ?_⟩
        rw [ptb_congr hcc hmm2]
        show mapGet M j = _
        rw [hmapne j hji]
        exact hmap
    · intro j hj
      have hj' : (if j = id then some pos else f j) = none := hj
      by_cases hji : j = id
      · subst hji
        rw [if_pos rfl] at hj'
        exact absurd hj' (by simp)
      · rw [if_neg hji] at hj'
        show mapGet M j = none
        rw [hmapne j hji]
        exact inv.unmapped j hj'
    · intro j hjnone x y bkt hbkt
      have hjnone' : mapGet M j = none := hjnone
      have hji : j ≠ id := by
        intro h
        subst h
        rw [hmapself] at hjnone'
        exact absurd hjnone' (by simp)
      rw [hmapne j hji] at hjnone'
      have hbkt' : get2? G x y = some bkt := hbkt
      rcases hval x y bkt hbkt' with ⟨hxy, hbv⟩ | ⟨hxy, hbv⟩
      · rw [hbv, List.count_append, inv.unmappedCount j hjnone' B.1 B.2 nb hnb]
        simp [hji]
      · exact inv.unmappedCount j hjnone' x y bkt hbv
    · intro j bi hbi
      have hbi' : mapGet M j = some bi := hbi
      by_cases hji : j = id
      · subst hji
        rw [hmapself] at hbi'
        injection hbi' with hbi'
        subst hbi'
        constructor
        · show 0 ≤ B.1 ∧ B.1 < (G.length : Int) ∧ 0 ≤ B.2 ∧ B.2 < _
          rw [hlenG, inv.width]
          exact ⟨hbx0, hbxW, hby0, hbyH⟩
        · intro x y bkt hbkt
          have hbkt' : get2? G x y = some bkt := hbkt
          rcases hval x y bkt hbkt' with ⟨hxy, hbv⟩ | ⟨hxy, hbv⟩
          · rw [if_pos hxy, hbv, List.count_append,
              inv.unmappedCount j hmg B.1 B.2 nb hnb]
            simp
          · rw [if_neg hxy]
            exact inv.unmappedCount j hmg x y bkt hbv
      · rw [hmapne j hji] at hbi'
        obtain ⟨hgridj, hcountj⟩ := inv.counts j bi hbi'
        constructor
        · show 0 ≤ bi.1 ∧ bi.1 < (G.length : Int) ∧ 0 ≤ bi.2 ∧ bi.2 < _
          rw [hlenG]
          exact hgridj
        · intro x y bkt hbkt
          have hbkt' : get2? G x y = some bkt := hbkt
          rcases hval x y bkt hbkt' with ⟨hxy, hbv⟩ | ⟨hxy, hbv⟩
          · rw [hbv, List.count_append]
            have h0 : List.count j [id] = 0 := by simp [hji]
            rw [h0, Nat.add_zero, hcountj B.1 B.2 nb hnb, ← hxy]
          · exact hcountj x y bkt hbv
  | some ob =>
    simp only [hmg, Option.bind_eq_bind, Option.pure_def, Option.bind_eq_some,
      Option.some.injEq] at hupd
    obtain ⟨oldB, hob, nb, hnb, hp'⟩ := hupd
    obtain ⟨hobGrid, hobCount⟩ := inv.counts id ob hmg
    have hcountOld : oldB.count id = 1 := by
      have h := hobCount ob.1 ob.2 oldB hob
      simpa using h
    have hmem : id ∈ oldB := List.count_pos_iff_mem.mp (by rw [hcountOld]; norm_num)
    have hremove : spliceRemove oldB id = oldB.erase id := by
      unfold spliceRemove
      rw [if_pos hmem]
    rw [hremove] at hnb hp'
    set G1 := set2 p.buckets ob.1 ob.2 (oldB.erase id) with hG1
    set G := set2 G1 B.1 B.2 (nb ++ [id]) with hG
    set M := mapSet p.idToBucket id B with hM
    have hp2 : p' = { p with buckets := G, idToBucket := M } := hp'.symm
    subst hp2
    have hcc : Partition.cellSize { p with buckets := G, idToBucket := M } =
        p.cellSize := rfl
    have hmm2 : Partition.minRange { p with buckets := G, idToBucket := M } =
        p.minRange := rfl
    have hg1self : get2? G1 ob.1 ob.2 = some (oldB.erase id) := by
      rw [hG1]
      exact get2?_set2_self hob
    have hg1ne : ∀ x y, (x, y) ≠ (ob.1, ob.2) →
        get2? G1 x y = get2? p.buckets x y := by
      intro x y h
      rw [hG1]
      exact get2?_set2_ne h
    have hself : get2? G B.1 B.2 = some (nb ++ [id]) := by
      rw [hG]
      exact get2?_set2_self hnb
    have hne : ∀ x y, (x, y) ≠ B → get2? G x y = get2? G1 x y := by
      intro x y h
      rw [hG]
      exact get2?_set2_ne h
    have hval : ∀ x y bkt, get2? G x y = some bkt →
        ((x, y) = B ∧ bkt = nb ++ [id]) ∨
        ((x, y) ≠ B ∧ (x, y) = (ob.1, ob.2) ∧ bkt = oldB.erase id) ∨
        ((x, y) ≠ B ∧ (x, y) ≠ (ob.1, ob.2) ∧ get2? p.buckets x y = some bkt) := by
      intro x y bkt hbkt
      by_cases hxy : (x, y) = B
      · left
        refine ⟨hxy, ?_⟩
        have hx : x = B.1 := congrArg Prod.fst hxy
        have hy : y = B.2 := congrArg Prod.snd hxy
        rw [hx, hy, hself] at hbkt
        injection hbkt with hbkt
        exact hbkt.symm
      · rw [hne x y hxy] at hbkt
        by_cases hxo : (x, y) = (ob.1, ob.2)
        · right
          left
          refine ⟨hxy, hxo, ?_⟩
          have hx : x = ob.1 := congrArg Prod.fst hxo
          have hy : y = ob.2 := congrArg Prod.snd hxo
          rw [hx, hy, hg1self] at hbkt
          injection hbkt with hbkt
          exact hbkt.symm
        · right
          right
          rw [hg1ne x y hxo] at hbkt
          exact ⟨hxy, hxo, hbkt⟩
    have hnbval : ((B.1, B.2) = (ob.1, ob.2) ∧ nb = oldB.erase id) ∨
        ((B.1, B.2) ≠ (ob.1, ob.2) ∧ get2? p.buckets B.1 B.2 = some nb) := by
      by_cases hBo : ((B.1 : Int), (B.2 : Int)) = (ob.1, ob.2)
      · left
        refine ⟨hBo, ?_⟩
        have hnb' := hnb
        have hx : B.1 = ob.1 := congrArg Prod.fst hBo
        have hy : B.2 = ob.2 := congrArg Prod.snd hBo
        rw [hx, hy, hg1self] at hnb'
        injection hnb' with hnb'
        exact hnb'.symm
      · right
        have hnb' := hnb
        rw [hg1ne B.1 B.2 hBo] at hnb'
        exact ⟨hBo, hnb'⟩
    have hcnt_nb_id : nb.count id = 0 := by
      rcases hnbval with ⟨hBo, hv⟩ | ⟨hBo, hv⟩
      · rw [hv, List.count_erase_self, hcountOld]
      · have hcnt := hobCount B.1 B.2 nb hv
        rw [hcnt, if_neg (show ((B.1 : Int), (B.2 : Int)) ≠ ob from hBo)]
    have hlenG : G.length = p.buckets.length := by
      rw [hG, length_set2, hG1, length_set2]
    have hmapself : mapGet M id = some B := by
      rw [hM]
      exact mapGet_mapSet_self _ _ _
    have hmapne : ∀ j, j ≠ id → mapGet M j = mapGet p.idToBucket j := by
      intro j hj
      rw [hM]
      exact mapGet_mapSet_ne _ _ _ _ (fun h => hj h.symm)
    refine ⟨hcc.trans inv.cell, hmm2.trans inv.minr, ?_, ?_, ?_, ?_, ?_, ?_⟩
    · show G.length = _
      rw [hlenG]
      exact inv.width
    · show ∀ row ∈ G, row.length = gridH minR maxR maxD
      rw [hG, hG1]
      exact set2_rect (P := fun n => n = gridH minR maxR maxD)
        (fun row _ hP => by rw [List.length_set]; exact hP)
        (set2_rect (P := fun n => n = gridH minR maxR maxD)
          (fun row _ hP => by rw [List.length_set]; exact hP) inv.rect)
    · intro j pos0 hj
      have hj' : (if j = id then some pos else f j) = some pos0 := hj
      by_cases hji : j = id
      · subst hji
        rw [if_pos rfl] at hj'
        injection hj' with hj'
        subst hj'
        refine ⟨hpos, ?_⟩
        rw [ptb_congr hcc hmm2, ← hB]
        exact hmapself
      · rw [if_neg hji] at hj'
        obtain ⟨hin, hmap⟩ := inv.mapped j pos0 hj'
        refine ⟨hin, ?_⟩
        rw [ptb_congr hcc hmm2]
        show mapGet M j = _
        rw [hmapne j hji]
        exact hmap
    · intro j hj
      have hj' : (if j = id then some pos else f j) = none := hj
      by_cases hji : j = id
      · subst hji
        rw [if_pos rfl] at hj'
        exact absurd hj' (by simp)
      · rw [if_neg hji] at hj'
        show mapGet M j = none
        rw [hmapne j hji]
        exact inv.unmapped j hj'
    · intro j hjnone x y bkt hbkt
      have hjnone' : mapGet M j = none := hjnone
      have hji : j ≠ id := by
        intro h
        subst h
        rw [hmapself] at hjnone'
        exact absurd hjnone' (by simp)
      rw [hmapne j hji] at hjnone'
      have hz := inv.unmappedCount j hjnone'
      have hzOld : oldB.count j = 0 := hz ob.1 ob.2 oldB hob
      have hbkt' : get2? G x y = some bkt := hbkt
      rcases hval x y bkt hbkt' with ⟨hxy, hbv⟩ | ⟨hxy, hxo, hbv⟩ | ⟨hxy, hxo, hbv⟩
      · rw [hbv, List.count_append]
        have h1 : nb.count j = 0 := by
          rcases hnbval with ⟨hBo, hv⟩ | ⟨hBo, hv⟩
          · rw [hv, List.count_erase_of_ne hji, hzOld]
          · exact hz B.1 B.2 nb hv
        rw [h1]
        simp [hji]
      · rw [hbv, List.count_erase_of_ne hji, hzOld]
      · exact hz x y bkt hbv
    · intro j bi hbi
      have hbi' : mapGet M j = some bi := hbi
      by_cases hji : j = id
      · subst hji
        rw [hmapself] at hbi'
        injection hbi' with hbi'
        subst hbi'
        constructor
        · show 0 ≤ B.1 ∧ B.1 < (G.length : Int) ∧ 0 ≤ B.2 ∧ B.2 < _
          rw [hlenG, inv.width]
          exact ⟨hbx0, hbxW, hby0, hbyH⟩
        · intro x y bkt hbkt
          have hbkt' : get2? G x y = some bkt := hbkt
          rcases hval x y bkt hbkt' with ⟨hxy, hbv⟩ | ⟨hxy, hxo, hbv⟩ | ⟨hxy, hxo, hbv⟩
          · rw [if_pos hxy, hbv, List.count_append, hcnt_nb_id]
            simp
          · rw [if_neg hxy, hbv, List.count_erase_self, hcountOld]
          · rw [if_neg hxy]
            have hcnt := hobCount x y bkt hbv
            rw [hcnt, if_neg (show (x, y) ≠ ob from hxo)]
      · rw [hmapne j hji] at hbi'
        obtain ⟨hgridj, hcountj⟩ := inv.counts j bi hbi'
        have hjOld : oldB.count j = if ((ob.1 : Int), (ob.2 : Int)) = bi then 1 else 0 :=
          hcountj ob.1 ob.2 oldB hob
        constructor
        · show 0 ≤ bi.1 ∧ bi.1 < (G.length : Int) ∧ 0 ≤ bi.2 ∧ bi.2 < _
          rw [hlenG]
          exact hgridj
        · intro x y bkt hbkt
          have hbkt' : get2? G x y = some bkt := hbkt
          rcases hval x y bkt hbkt' with ⟨hxy, hbv⟩ | ⟨hxy, hxo, hbv⟩ | ⟨hxy, hxo, hbv⟩
          · rw [hbv, List.count_append]
            have h0 : List.count j [id] = 0 := by simp [hji]
            rw [h0, Nat.add_zero]
            rcases hnbval with ⟨hBo, hv⟩ | ⟨hBo, hv⟩
            · have hxB : (x, y) = ((ob.1 : Int), (ob.2 : Int)) := by
                rw [hxy]
                exact hBo
              rw [hv, List.count_erase_of_ne hji, hjOld, hxB]
            · have hxB : (x, y) = ((B.1 : Int), (B.2 : Int)) := hxy
              rw [hcountj B.1 B.2 nb hv, hxB]
          · rw [hbv, List.count_erase_of_ne hji, hjOld, hxo]
          · exact hcountj x y bkt hbv

theorem partitionReach_inv {minR maxR : ℚ × ℚ} {maxD : ℚ} {p : Partition}
    {f : Nat → Option (ℚ × ℚ)} (h : PartitionReach minR maxR maxD p f)
    (hcell : 0 < maxD) : PartInv minR maxR maxD f p := by
  induction h with
  | init => exact partInv_init minR maxR maxD
  | update hreach hpos hupd ih => exact partInv_update ih hcell hpos hupd

/-- Claim C8: after any in-bounds `Update(id, pos)` on a partition state
reachable by in-bounds updates, the id appears exactly once in exactly one
bucket — the bucket at the floor indices computed from `pos` — and in no
other bucket of the grid. -/
theorem claim8_unique_bucket {minR maxR : ℚ × ℚ} {maxD : ℚ} {p : Partition}
    {f : Nat → Option (ℚ × ℚ)} {id : Nat} {pos : ℚ × ℚ} {p' : Partition}
    (hreach : PartitionReach minR maxR maxD p f) (hcell : 0 < maxD)
    (hpos : inRange minR maxR pos) (hupd : p.Update id pos = some p') :
    ∃ bkt, get2? p'.buckets (p'.PositionToBucketIndices pos).1
        (p'.PositionToBucketIndices pos).2 = some bkt ∧ bkt.count id = 1 ∧
      ∀ x y bkt', get2? p'.buckets x y = some bkt' →
        (x, y) ≠ p'.PositionToBucketIndices pos → bkt'.count id = 0 := by
  have hreach' := PartitionReach.update hreach hpos hupd
  have inv := partitionReach_inv hreach' hcell
  have hfid : (fun j => if j = id then some pos else f j) id = some pos := by simp
  obtain ⟨-, hmg⟩ := inv.mapped id pos hfid
  obtain ⟨hgrid, hcount⟩ := inv.counts id _ hmg
  obtain ⟨bkt, hbkt⟩ := get2?_total inv.rect hgrid.1 hgrid.2.1 hgrid.2.2.1 hgrid.2.2.2
  refine ⟨bkt, hbkt, ?_, ?_⟩
  · rw [hcount _ _ _ hbkt]
    simp
  · intro x y bkt' hbkt' hne
    rw [hcount _ _ _ hbkt']
    exact if_neg hne

/-- Closed witness for claim C8: updating id 0 at `(0.75, 0.25)` on a fresh
2×2 partition puts it exactly once in the bucket computed from that
position. -/
theorem claim8_witness :
    ((get2? partWitnessState.buckets
        (partWitnessState.PositionToBucketIndices (3/4, 1/4)).1
        (partWitnessState.PositionToBucketIndices (3/4, 1/4)).2).map
      (fun bkt => bkt.count 0)) = some 1 := by
  obtain ⟨bkt, hb, hc1, -⟩ :=
    claim8_unique_bucket
      (@PartitionReach.init (0, 0) (1, 1) (1/2))
      (by norm_num)
      (by
        refine ⟨?_, ?_, ?_, ?_⟩ <;> norm_num)
      (show (Partition.init (0, 0) (1, 1) (1/2)).Update 0 (3/4, 1/4) =
        some partWitnessState by with_unfolding_all rfl)
  rw [hb, Option.map_some', hc1]

theorem abs_axis_le (dx dy c : ℚ) (hc : 0 ≤ c) (h : dx ^ 2 + dy ^ 2 ≤ c ^ 2) :
    |dx| ≤ c := by
  have hd2 : dx ^ 2 ≤ c ^ 2 := by nlinarith [sq_nonneg dy]
  apply abs_le.mpr
  constructor
  · nlinarith [sq_nonneg (dx + c)]
  · nlinarith [sq_nonneg (dx - c)]

theorem floor_close {u v : ℚ} (h : u ≤ v + 1) : ⌊u⌋ ≤ ⌊v⌋ + 1 := by
  calc ⌊u⌋ ≤ ⌊v + 1⌋ := Int.floor_le_floor h
    _ = ⌊v⌋ + 1 := Int.floor_add_one v

theorem div_shift_le {a b c : ℚ} (hc : 0 < c) (h : a ≤ b + c) :
    a / c ≤ b / c + 1 := by
  calc a / c ≤ (b + c) / c := (div_le_div_iff_of_pos_right hc).mpr h
    _ = b / c + 1 := by rw [add_div, div_self hc.ne']

theorem ptb_axis_close {p : Partition} (hcell : 0 < p.cellSize) {a b : ℚ × ℚ}
    (h1 : |a.1 - b.1| ≤ p.cellSize) (h2 : |a.2 - b.2| ≤ p.cellSize) :
    (p.PositionToBucketIndices a).1 ≤ (p.PositionToBucketIndices b).1 + 1 ∧
    (p.PositionToBucketIndices b).1 ≤ (p.PositionToBucketIndices a).1 + 1 ∧
    (p.PositionToBucketIndices a).2 ≤ (p.PositionToBucketIndices b).2 + 1 ∧
    (p.PositionToBucketIndices b).2 ≤ (p.PositionToBucketIndices a).2 + 1 := by
  obtain ⟨h1a, h1b⟩ := abs_le.mp h1
  obtain ⟨h2a, h2b⟩ := abs_le.mp h2
  unfold Partition.PositionToBucketIndices
  refine ⟨floor_close (div_shift_le hcell (by linarith)),
          floor_close (div_shift_le hcell (by linarith)),
          floor_close (div_shift_le hcell (by linarith)),
          floor_close (div_shift_le hcell (by linarith))⟩

/-- Claim C3: on any partition state reachable by in-bounds `Update` calls,
`GetNearby(pos)` (for an in-bounds query) succeeds and its result contains
every registered id whose last updated position lies within Euclidean
distance `maxDistance` of the query (stated over squared distances to stay in
exact rational arithmetic); extra ids in the result are allowed. -/
theorem claim3_nearby_superset {minR maxR : ℚ × ℚ} {maxD : ℚ} {p : Partition}
    {f : Nat → Option (ℚ × ℚ)} {id : Nat} {q : ℚ × ℚ} {pos : ℚ × ℚ}
    (hreach : PartitionReach minR maxR maxD p f) (hcell : 0 < maxD)
    (hid : f id = some q) (hpos : inRange minR maxR pos)
    (hdist : (q.1 - pos.1) ^ 2 + (q.2 - pos.2) ^ 2 ≤ maxD ^ 2) :
    ∃ l, p.GetNearby pos = some l ∧ id ∈ l := by
  have inv := partitionReach_inv hreach hcell
  obtain ⟨hqr, hmg⟩ := inv.mapped id q hid
  obtain ⟨hqgrid, hqcount⟩ := inv.counts id _ hmg
  obtain ⟨bq, hbq⟩ :=
    get2?_total inv.rect hqgrid.1 hqgrid.2.1 hqgrid.2.2.1 hqgrid.2.2.2
  have hidin : id ∈ bq := by
    apply List.count_pos_iff.mp
    rw [hqcount _ _ _ hbq]
    simp
  obtain ⟨hpx0, hpxW, hpy0, hpyH⟩ := bucket_in_grid hcell hpos inv.cell inv.minr
  have hcell' : 0 < p.cellSize := by
    rw [inv.cell]
    exact hcell
  have habs1 : |q.1 - pos.1| ≤ p.cellSize := by
    rw [inv.cell]
    exact abs_axis_le (q.1 - pos.1) (q.2 - pos.2) maxD hcell.le hdist
  have habs2 : |q.2 - pos.2| ≤ p.cellSize := by
    rw [inv.cell]
    exact abs_axis_le (q.2 - pos.2) (q.1 - pos.1) maxD hcell.le (by linarith)
  obtain ⟨hx1, hx2, hy1, hy2⟩ := ptb_axis_close hcell' habs1 habs2
  have hlen0 : 0 < p.buckets.length := by
    have := hqgrid.2.1
    have := hqgrid.1
    omega
  obtain ⟨row0, hrow0⟩ : ∃ row0, p.buckets.get? 0 = some row0 := by
    cases h : p.buckets.get? 0 with
    | none => exact absurd (List.get?_eq_none.mp h) (by omega)
    | some r => exact ⟨r, rfl⟩
  have hrow0len : row0.length = gridH minR maxR maxD :=
    inv.rect _ (List.get?_mem hrow0)
  have hWlen : p.buckets.length = gridW minR maxR maxD := inv.width
  unfold Partition.GetNearby
  rw [hrow0]
  simp only [Option.some_bind]
  have hacc : ∀ x ∈ intRangeIncl
        (max ((p.PositionToBucketIndices pos).1 - 1) 0)
        (min ((p.PositionToBucketIndices pos).1 + 1) ((p.buckets.length : Int) - 1)),
      ∀ y ∈ intRangeIncl
        (max ((p.PositionToBucketIndices pos).2 - 1) 0)
        (min ((p.PositionToBucketIndices pos).2 + 1) ((row0.length : Int) - 1)),
      ∃ b, get2? p.buckets x y = some b := by
    intro x hx y hy
    rw [mem_intRangeIncl] at hx hy
    refine get2?_total inv.rect (by omega) (by omega) (by omega) ?_
    rw [hrow0len] at hy
    omega
  obtain ⟨l, hl⟩ := collectAll_total _ _ hacc
  refine ⟨l, hl, collectAll_mem hl ?_ ?_ hbq hidin⟩
  · rw [mem_intRangeIncl]
    constructor
    · have := hqgrid.1
      omega
    · have := hqgrid.2.1
      omega
  · rw [mem_intRangeIncl]
    rw [hrow0len]
    constructor
    · have := hqgrid.2.2.1
      omega
    · have := hqgrid.2.2.2
      omega

/-- Closed witness for claim C3: after registering id 0 at `(0.75, 0.25)`,
`GetNearby` at that same point returns a list containing id 0. -/
theorem claim3_witness :
    ((partWitnessState.GetNearby (3/4, 1/4)).map (fun l => decide (0 ∈ l))) =
      some true := by
  have hupd : (Partition.init (0, 0) (1, 1) (1/2)).Update 0 (3/4, 1/4) =
      some partWitnessState := by with_unfolding_all rfl
  have hpos : inRange (0, 0) (1, 1) ((3/4 : ℚ), (1/4 : ℚ)) := by
    refine ⟨?_, ?_, ?_, ?_⟩ <;> norm_num
  obtain ⟨l, hl, hm⟩ := claim3_nearby_superset
    (PartitionReach.update (PartitionReach.init) hpos hupd)
    (by norm_num) (show (if (0 : Nat) = 0 then some ((3/4 : ℚ), (1/4 : ℚ))
      else none) = some (3/4, 1/4) by simp)
    hpos (by norm_num)
  rw [hl, Option.map_some']
  simp [hm]
